import Mathlib

/-!
Verification development for the DocVault document-management data layer.

The Python services are shallowly embedded as pure Lean functions over an
explicit `VaultState`.  Database tables become lists of rows, UUIDs become
natural numbers drawn from a fresh-id counter, raised exceptions become
`Except Err` results, and the object store becomes an association list from
(bucket, key) to content.  Each definition mirrors one function of the
source tree (`doc_vault/services/*.py`, `doc_vault/database/repositories/*.py`,
`doc_vault/database/schemas/document.py`); definitions for source files that
are absent from the tree are marked `Modelled from the spec:` in their doc
comment.
-/

namespace DocVault

/-- Error taxonomy of `doc_vault/exceptions.py` (the module itself is not in
the tree; the constructors mirror the exception classes imported and raised
throughout the services: DocumentNotFoundError, AgentNotFoundError,
OrganizationNotFoundError, PermissionDeniedError, ValidationError,
StorageError, DatabaseError). -/
inductive Err where
  | documentNotFound
  | agentNotFound
  | organizationNotFound
  | permissionDenied
  | validation
  | storage
  | database
  deriving DecidableEq, Repr

/-- One row of the `document_acl` table (`schemas/acl.py`).  The surrogate
`id`, `granted_at` timestamp and opaque `metadata` are omitted: no service
logic reads them back.  `expiresAt` is an absolute instant on a discrete
clock. -/
structure AclRow where
  documentId : Nat
  agentId : Nat
  permission : String
  grantedBy : Nat
  expiresAt : Option Nat
  deriving DecidableEq, Repr

/-- One row of the `document_versions` table (`schemas/version.py`).  `rowId`
is the surrogate primary key (a UUID in the source, hence disjoint from the
small integers used as version numbers); opaque metadata is omitted. -/
structure VersionRow where
  rowId : Nat
  documentId : Nat
  versionNumber : Nat
  filename : String
  fileSize : Nat
  mimeType : String
  storagePath : String
  changeDescription : String
  changeType : String
  createdBy : Nat
  deriving DecidableEq, Repr

/-- One row of the `documents` table (`schemas/document.py`).  `pfx` embeds
the source's `prefix` column.  description, tags and opaque metadata are
omitted: no claim mentions them and the services only copy them through. -/
structure Document where
  id : Nat
  organizationId : Nat
  name : String
  filename : String
  fileSize : Nat
  mimeType : String
  storagePath : String
  pfx : Option String
  path : Option String
  currentVersion : Nat
  status : String
  createdBy : Nat
  deriving DecidableEq, Repr

/-- Whole-system state: the relational tables, the object store, the
fresh-UUID source and the current clock instant. -/
structure VaultState where
  orgs : List Nat
  agents : List Nat
  documents : List Document
  versions : List VersionRow
  acls : List AclRow
  objects : List ((String × String) × String)
  nextId : Nat
  now : Nat
  deriving DecidableEq, Repr

/-- The result type of `upload_enhanced` / `replace_document_content`, which
dynamically return either a `Document` or a `DocumentVersion`. -/
inductive UploadResult where
  | doc : Document → UploadResult
  | ver : VersionRow → UploadResult
  deriving DecidableEq, Repr

/-! ## String helpers (SQL ILIKE / LIKE and the pydantic validators) -/

/-- Is `pat` a contiguous sublist of `s`?  Used to embed SQL
`x LIKE '%' || q || '%'` for a wildcard-free `q` and Python's `in`. -/
def subList (pat : List Char) : List Char → Bool
  | [] => pat.isEmpty
  | c :: rest => pat.isPrefixOf (c :: rest) || subList pat rest

/-- Case-sensitive substring test (Python `"//" in v`). -/
def containsSub (hay pat : String) : Bool :=
  subList pat.toList hay.toList

/-- Case-insensitive substring test: `name ILIKE '%' || q || '%'` for a `q`
holding no `%`/`_` wildcard. -/
def ilikeContains (hay pat : String) : Bool :=
  subList (pat.toList.map Char.toLower) (hay.toList.map Char.toLower)

/-! ## Repository-level primitives -/

/-- `DocumentRepository.get_by_id`: the row whose primary key matches. -/
def docGetById (s : VaultState) (id : Nat) : Option Document :=
  s.documents.find? (fun d => d.id == id)

/-- `AgentRepository.get_by_id` reduced to existence
(`_check_agent_exists` only tests for a row). -/
def agentExists (s : VaultState) (agentId : Nat) : Bool :=
  s.agents.contains agentId

/-- `OrganizationRepository.get_by_id` reduced to existence. -/
def orgExists (s : VaultState) (orgId : Nat) : Bool :=
  s.orgs.contains orgId

/-- `DocumentRepository.search_by_name`: rows of the organization whose
status is 'active' and whose name contains the query case-insensitively
(`name ILIKE '%' || q || '%'`), truncated to `limit`.  The `ORDER BY
created_at DESC` clause is embedded as the ambient list order. -/
def searchByName (s : VaultState) (orgId : Nat) (nameQuery : String)
    (limit : Nat) : List Document :=
  ((s.documents.filter (fun d =>
    d.organizationId == orgId && d.status == "active" &&
      ilikeContains d.name nameQuery)).take limit)

/-- `DocumentRepository.get_by_organization`: rows of the organization,
optionally filtered by an exact status, then OFFSET/LIMIT.  Note the query
has no `status != 'deleted'` clause: with no status filter, soft-deleted
rows are returned. -/
def getByOrganization (s : VaultState) (orgId : Nat) (status : Option String)
    (limit offset : Nat) : List Document :=
  (((s.documents.filter (fun d =>
      d.organizationId == orgId &&
        (match status with
         | none => true
         | some st => d.status == st))).drop offset).take limit)

/-- `DocumentRepository.get_by_tags` (tag overlap is irrelevant to the
claims; rows are modelled without tags, so the tag test keeps every active
row of the organization, matching `tags && $2 AND status = 'active'` at the
granularity the claims need). -/
def getByTags (s : VaultState) (orgId : Nat) (limit offset : Nat) :
    List Document :=
  (((s.documents.filter (fun d =>
      d.organizationId == orgId && d.status == "active")).drop offset).take limit)

/-- `DocumentRepository.list_by_prefix`: exact prefix match, excluding
soft-deleted rows. -/
def listByPrefix (s : VaultState) (orgId : Nat) (p : String)
    (limit offset : Nat) : List Document :=
  (((s.documents.filter (fun d =>
      d.organizationId == orgId && d.pfx == some p &&
        d.status != "deleted")).drop offset).take limit)

/-- SQL LIKE pattern matching (`%` any run, `_` any one character, the rest
literal), for `DocumentRepository.list_recursive`. -/
def likeMatch : List Char → List Char → Bool
  | [], [] => true
  | [], _ :: _ => false
  | '%' :: ps, s =>
      likeMatch ps s ||
        (match s with
         | [] => false
         | _ :: rest => likeMatch ('%' :: ps) rest)
  | '_' :: ps, s =>
      (match s with
       | [] => false
       | _ :: rest => likeMatch ps rest)
  | c :: ps, s =>
      (match s with
       | [] => false
       | c2 :: rest => c == c2 && likeMatch ps rest)
  termination_by pat s => (pat.length, s.length)

/-- LIKE against an optional column (SQL NULL never matches LIKE). -/
def optLike (v : Option String) (pat : String) : Bool :=
  match v with
  | none => false
  | some x => likeMatch pat.toList x.toList

/-- `DocumentRepository.list_recursive`: rows whose prefix or path starts
with `p`, excluding soft-deleted; the depth-limited variant adds the
source's `NOT LIKE $2 || '%' || '/' || '%/%'` condition on prefix. -/
def listRecursive (s : VaultState) (orgId : Nat) (p : String)
    (maxDepth : Option Nat) (limit offset : Nat) : List Document :=
  let base := fun (d : Document) =>
    d.organizationId == orgId &&
      (optLike d.pfx (p ++ "%") || optLike d.path (p ++ "%")) &&
      d.status != "deleted"
  let cond := fun (d : Document) =>
    match maxDepth with
    | none => base d
    | some _ =>
        base d &&
          (d.pfx == none || !(optLike d.pfx (p ++ "%" ++ "/" ++ "%/%")))
  (((s.documents.filter cond).drop offset).take limit)

/-- `DocumentRepository.update` restricted to the field updates the services
perform: replaces every row whose primary key matches (exactly one row,
since ids are unique). -/
def documentRepoUpdate (documents : List Document) (id : Nat)
    (f : Document → Document) : List Document :=
  documents.map (fun d => if d.id == id then f d else d)

/-- `VersionRepository.update` (the module is absent from the tree; its
shape is fixed by `DocumentRepository.update` and by the version-repository
tests, which pass the version row's primary key): updates the row whose
`rowId` matches the first argument. -/
def versionRepoUpdate (versions : List VersionRow) (rowId : Nat)
    (f : VersionRow → VersionRow) : List VersionRow :=
  versions.map (fun v => if v.rowId == rowId then f v else v)

/-! ## ACL engine -/

/-- Is the grant unexpired at instant `now`?  Modelled from the spec:
`repositories/acl.py` is absent from the tree; per §3 "An expired grant
(expires_at in the past) is treated as absent for all permission checks". -/
def aclActive (now : Nat) (r : AclRow) : Bool :=
  match r.expiresAt with
  | none => true
  | some t => now < t

/-- `ACLRepository.check_permission`.  Modelled from the spec:
`repositories/acl.py` is absent from the tree; per §4.1 an unexpired ADMIN
row short-circuits every level, otherwise an unexpired row must match the
level exactly (the ADMIN short-circuit is also pinned by
`test_check_admin_inherits_all`). -/
def aclCheckPermission (s : VaultState) (documentId agentId : Nat)
    (permission : String) : Bool :=
  s.acls.any (fun r =>
    r.documentId == documentId && r.agentId == agentId &&
      aclActive s.now r &&
      (r.permission == "ADMIN" || r.permission == permission))

/-- The allowed-permissions set of `AccessService._validate_permission`. -/
def validPermission (permission : String) : Bool :=
  permission == "READ" || permission == "WRITE" || permission == "DELETE" ||
    permission == "SHARE" || permission == "ADMIN"

/-! ## Object store -/

/-- `S3StorageBackend.upload` at a (bucket, key): last write wins. -/
def storagePut (objs : List ((String × String) × String))
    (bucket key content : String) : List ((String × String) × String) :=
  ((bucket, key), content) :: objs.filter (fun o => o.1 != (bucket, key))

/-- `S3StorageBackend.delete` at a (bucket, key). -/
def storageDelete (objs : List ((String × String) × String))
    (bucket key : String) : List ((String × String) × String) :=
  objs.filter (fun o => o.1 != (bucket, key))

/-- `DocumentService._get_bucket_name`: one bucket per organization. -/
def bucketName (orgId : Nat) : String :=
  "doc-vault-org-" ++ toString orgId

/-- `DocumentService._generate_storage_path`:
`{documentId}/v{versionNumber}/{filename}`. -/
def generateStoragePath (documentId versionNumber : Nat) (fname : String) :
    String :=
  toString documentId ++ "/v" ++ toString versionNumber ++ "/" ++ fname

/-! ## Document service helpers -/

/-- `DocumentService._extract_file_info` for the bytes input branch:
(content, "document", length). -/
def extractFileInfo (content : String) : String × String × Nat :=
  (content, "document", content.length)

/-- `DocumentService._detect_mime_type`: the Python `mimetypes` table is an
external stdlib lookup; it is embedded as its fallback value, on which no
claim depends. -/
def detectMimeType (_fname : String) : String :=
  "application/octet-stream"

/-- The filename fixup of `upload_enhanced` / `_create_new_document`:
`filename or detected`, then the `"document"` placeholder (or emptiness)
falls back to `name ++ ".bin"`. -/
def finalFilenameNew (filenameArg : Option String) (detected name : String) :
    String :=
  let f := match filenameArg with
    | some f => f
    | none => detected
  if f == "" || f == "document" then name ++ ".bin" else f

/-- Python `str.startswith`, on the character list. -/
def strStartsWith (s pre : String) : Bool :=
  pre.toList.isPrefixOf s.toList

/-- Python `str.endswith`, on the character list. -/
def strEndsWith (s suf : String) : Bool :=
  suf.toList.isSuffixOf s.toList

/-- The prefix validator of pydantic `DocumentCreate.validate_prefix`
(`schemas/document.py`): a present prefix must start with `/`, end with `/`,
and contain no `//`. -/
def prefixOk : Option String → Bool
  | none => true
  | some p => strStartsWith p "/" && strEndsWith p "/" && !(containsSub p "//")

/-- The path computation of `_create_new_document`: `prefix + name` when a
(truthy) prefix is given, else `/ + name`. -/
def mkPath (pfxArg : Option String) (name : String) : String :=
  match pfxArg with
  | some p => if p == "" then "/" ++ name else p ++ name
  | none => "/" ++ name

/-! ## Document service operations

Every multi-row mutation below sits inside `async with conn.transaction():`
in the source.  `database/postgres_manager.py` is absent from the tree, so
its transaction semantics are modelled from the spec (§5): all row mutations
of the block commit together, and an exception raised inside the block rolls
every row mutation back.  The embedding realises rollback by returning
`Except.error` without a successor state, so a failed operation leaves the
caller holding the entry state; object-store writes are outside the rollback
(§5), but on the failure paths below the failing write itself is the first
storage effect, so nothing is left behind. -/

/-- `DocumentService._create_new_document` (bytes input): build the row
(validating the prefix via `DocumentCreate`), then in one transaction insert
the document row, upload the blob (`storageOk` simulates the object-store
outcome), grant the creator ADMIN, and insert version row 1. -/
def createNewDocument (s : VaultState) (content name : String)
    (orgId agentId : Nat) (contentType filenameArg pfxArg : Option String)
    (storageOk : Bool) : Except Err (VaultState × Document) :=
  let info := extractFileInfo content
  let fileContent := info.1
  let detected := info.2.1
  let fileSize := info.2.2
  let finalFilename := finalFilenameNew filenameArg detected name
  let mimeType := match contentType with
    | some c => c
    | none => detectMimeType finalFilename
  let documentId := s.nextId
  let bucket := bucketName orgId
  let storagePath := generateStoragePath documentId 1 finalFilename
  let path := mkPath pfxArg name
  if !(prefixOk pfxArg) then .error .validation
  else if !storageOk then .error .storage
  else
    let doc : Document :=
      { id := documentId, organizationId := orgId, name := name,
        filename := finalFilename, fileSize := fileSize,
        mimeType := mimeType, storagePath := storagePath, pfx := pfxArg,
        path := some path, currentVersion := 1, status := "active",
        createdBy := agentId }
    let aclRow : AclRow :=
      { documentId := documentId, agentId := agentId, permission := "ADMIN",
        grantedBy := agentId, expiresAt := none }
    let verRow : VersionRow :=
      { rowId := s.nextId + 1, documentId := documentId, versionNumber := 1,
        filename := finalFilename, fileSize := fileSize,
        mimeType := mimeType, storagePath := storagePath,
        changeDescription := "Initial upload", changeType := "create",
        createdBy := agentId }
    .ok ({ s with
            documents := s.documents ++ [doc],
            versions := s.versions ++ [verRow],
            acls := s.acls ++ [aclRow],
            objects := storagePut s.objects bucket storagePath fileContent,
            nextId := s.nextId + 2 }, doc)

/-- `DocumentService.replace_document_content`.  With `createVersion` the
next version number is `current_version + 1` and the document row mirrors
the new version row; without it the blob at the current storage path is
overwritten, the document row's filename/size/mime are updated, and the
source passes `document.current_version` — a version *number* — to
`version_repo.update`, which expects the version row's primary key. -/
def replaceDocumentContent (s : VaultState) (documentId : Nat)
    (content : String) (agentId : Nat) (changeDescription : String)
    (createVersion : Bool) (contentType filenameArg : Option String)
    (storageOk : Bool) : Except Err (VaultState × UploadResult) :=
  if !(agentExists s agentId) then .error .agentNotFound
  else
    match docGetById s documentId with
    | none => .error .documentNotFound
    | some document =>
      if document.status == "deleted" then .error .documentNotFound
      else if !(aclCheckPermission s documentId agentId "WRITE") then
        .error .permissionDenied
      else
        let info := extractFileInfo content
        let fileContent := info.1
        let detected := info.2.1
        let fileSize := info.2.2
        let f0 := match filenameArg with
          | some f => f
          | none => detected
        let finalFilename := if f0 == "document" then document.filename else f0
        let mimeType := match contentType with
          | some c => c
          | none => detectMimeType finalFilename
        let bucket := bucketName document.organizationId
        if createVersion then
          let newNum := document.currentVersion + 1
          let newPath := generateStoragePath documentId newNum finalFilename
          if !storageOk then .error .storage
          else
            let docs := documentRepoUpdate s.documents documentId (fun d =>
              { d with currentVersion := newNum, filename := finalFilename,
                       fileSize := fileSize, mimeType := mimeType,
                       storagePath := newPath })
            let verRow : VersionRow :=
              { rowId := s.nextId, documentId := documentId,
                versionNumber := newNum, filename := finalFilename,
                fileSize := fileSize, mimeType := mimeType,
                storagePath := newPath,
                changeDescription := changeDescription,
                changeType := "update", createdBy := agentId }
            .ok ({ s with
                    documents := docs,
                    versions := s.versions ++ [verRow],
                    objects := storagePut s.objects bucket newPath fileContent,
                    nextId := s.nextId + 1 }, .ver verRow)
        else
          let storagePath := document.storagePath
          if !storageOk then .error .storage
          else
            let objs :=
              storagePut (storageDelete s.objects bucket storagePath)
                bucket storagePath fileContent
            let docAfter :=
              { document with filename := finalFilename, fileSize := fileSize,
                              mimeType := mimeType }
            let docs := documentRepoUpdate s.documents documentId (fun d =>
              { d with filename := finalFilename, fileSize := fileSize,
                       mimeType := mimeType })
            let vers := versionRepoUpdate s.versions document.currentVersion
              (fun v =>
                { v with filename := finalFilename, fileSize := fileSize,
                         storagePath := storagePath, mimeType := mimeType })
            .ok ({ s with documents := docs, versions := vers,
                          objects := objs }, .doc docAfter)

/-- `DocumentService._find_existing_document`: search with the query
`"^" ++ name ++ "$"` (intended as an exact-match marker) at limit 1, then
compare the optional prefix of the first hit. -/
def findExistingDocument (s : VaultState) (name : String) (orgId : Nat)
    (pfxArg : Option String) : Option Document :=
  match searchByName s orgId ("^" ++ name ++ "$") 1 with
  | [] => none
  | d :: _ =>
    match pfxArg with
    | some p => if d.pfx == some p then some d else none
    | none => some d

/-- `DocumentService.upload_enhanced` (the body of the public `upload`):
validate agent and organization, look the name up, then either create a new
version of the match or create a brand-new document. -/
def uploadEnhanced (s : VaultState) (content name : String)
    (orgId agentId : Nat) (contentType filenameArg pfxArg : Option String)
    (createVersion : Bool) (changeDescription : Option String)
    (storageOk : Bool) : Except Err (VaultState × UploadResult) :=
  if !(agentExists s agentId) then .error .agentNotFound
  else if !(orgExists s orgId) then .error .organizationNotFound
  else
    match findExistingDocument s name orgId pfxArg with
    | some existingDoc =>
        replaceDocumentContent s existingDoc.id content agentId
          (match changeDescription with
           | some c => c
           | none => "Updated: " ++ name)
          createVersion contentType filenameArg storageOk
    | none =>
        match createNewDocument s content name orgId agentId contentType
            filenameArg pfxArg storageOk with
        | .error e => .error e
        | .ok (s2, d) => .ok (s2, .doc d)

/-- `DocumentService.download_document`: agent and (non-deleted) document
must exist, the agent needs READ, then the current or a historical storage
path is fetched from the object store. -/
def downloadDocument (s : VaultState) (documentId agentId : Nat)
    (version : Option Nat) : Except Err String :=
  if !(agentExists s agentId) then .error .agentNotFound
  else
    match docGetById s documentId with
    | none => .error .documentNotFound
    | some document =>
      if document.status == "deleted" then .error .documentNotFound
      else if !(aclCheckPermission s documentId agentId "READ") then
        .error .permissionDenied
      else
        let pathOpt : Except Err String :=
          match version with
          | none => .ok document.storagePath
          | some v =>
            match s.versions.find? (fun r =>
                r.documentId == documentId && r.versionNumber == v) with
            | none => .error .validation
            | some vr => .ok vr.storagePath
        match pathOpt with
        | .error e => .error e
        | .ok sp =>
          match s.objects.find? (fun o =>
              o.1 == (bucketName document.organizationId, sp)) with
          | none => .error .storage
          | some o => .ok o.2

/-- `DocumentService.delete_document`: DELETE permission required; soft
delete flips the status, hard delete removes blobs (best effort) and the
document row — the version/ACL cascade is modelled from the spec (§3), the
DDL being absent from the tree. -/
def deleteDocument (s : VaultState) (documentId agentId : Nat)
    (hardDelete : Bool) : Except Err VaultState :=
  if !(agentExists s agentId) then .error .agentNotFound
  else
    match docGetById s documentId with
    | none => .error .documentNotFound
    | some document =>
      if document.status == "deleted" then .error .documentNotFound
      else if !(aclCheckPermission s documentId agentId "DELETE") then
        .error .permissionDenied
      else if hardDelete then
        let bucket := bucketName document.organizationId
        let paths :=
          ((s.versions.filter (fun v => v.documentId == documentId)).map
            (fun v => v.storagePath)) ++ [document.storagePath]
        .ok { s with
                documents := s.documents.filter (fun d => d.id != documentId),
                versions := s.versions.filter (fun v =>
                  v.documentId != documentId),
                acls := s.acls.filter (fun r => r.documentId != documentId),
                objects := s.objects.filter (fun o =>
                  !(o.1.1 == bucket && paths.contains o.1.2)) }
      else
        .ok { s with
                documents := documentRepoUpdate s.documents documentId
                  (fun d => { d with status := "deleted" }) }

/-- `DocumentService.list_documents_paginated` (the body of the public
`list_docs`), reduced to the fields the claims read: validation, the
four-way candidate query, and the per-document READ filter.  Python
truthiness of the prefix argument is preserved. -/
def listDocumentsPaginated (s : VaultState) (orgId agentId : Nat)
    (pfxArg : Option String) (recursive : Bool) (maxDepth : Option Nat)
    (status : Option String) (withTags : Bool) (limit offset : Nat) :
    Except Err (List Document) :=
  if !(1 ≤ limit && limit ≤ 1000) then .error .validation
  else if !(agentExists s agentId) then .error .agentNotFound
  else if !(orgExists s orgId) then .error .organizationNotFound
  else
    let hasP := match pfxArg with
      | some p => !(p == "")
      | none => false
    let candidates :=
      match pfxArg with
      | some p =>
        if hasP && recursive then listRecursive s orgId p maxDepth limit offset
        else if hasP then listByPrefix s orgId p limit offset
        else if withTags then getByTags s orgId limit offset
        else getByOrganization s orgId status limit offset
      | none =>
        if withTags then getByTags s orgId limit offset
        else getByOrganization s orgId status limit offset
    .ok (candidates.filter (fun d =>
      aclCheckPermission s d.id agentId "READ"))

/-! ## Access service operations -/

/-- One entry of the grant list handed to `set_permissions_bulk`
(`schemas/permission.py` PermissionGrant plus the optional `action` key;
a `remove` entry's missing permission defaults to "READ" in the source, so
the field is always present here). -/
structure PermissionGrant where
  agentId : Nat
  permission : String
  expiresAt : Option Nat
  action : String
  deriving DecidableEq, Repr

/-- Does the ACL row match the exact (document, agent, permission) tuple of
the grant (`ACLRepository.delete_by_document_agent_permission`)? -/
def grantMatches (documentId : Nat) (g : PermissionGrant) (r : AclRow) :
    Bool :=
  r.documentId == documentId && r.agentId == g.agentId &&
    r.permission == g.permission

/-- The fresh ACL row inserted for a (non-remove) grant. -/
def grantRow (documentId grantedBy : Nat) (g : PermissionGrant) : AclRow :=
  { documentId := documentId, agentId := g.agentId,
    permission := g.permission, grantedBy := grantedBy,
    expiresAt := g.expiresAt }

/-- The per-grant body of `set_permissions_bulk`'s transaction loop: the
grantee must exist; a remove deletes the tuple's rows; otherwise the level
is validated, the tuple's rows are deleted and a fresh row is inserted. -/
def applyGrant (s : VaultState) (documentId : Nat) (grantedBy : Nat)
    (acc : List AclRow × List AclRow) (g : PermissionGrant) :
    Except Err (List AclRow × List AclRow) :=
  if !(agentExists s g.agentId) then .error .agentNotFound
  else if g.action == "remove" then
    .ok (acc.1.filter (fun r => !(grantMatches documentId g r)), acc.2)
  else if !(validPermission g.permission) then .error .validation
  else
    let newRow := grantRow documentId grantedBy g
    .ok (acc.1.filter (fun r => !(grantMatches documentId g r)) ++ [newRow],
         acc.2 ++ [newRow])

/-- `AccessService.set_permissions_bulk` (the body of the public
`set_permissions`): the document must exist (no soft-delete test on this
path), the caller needs SHARE (an unexpired ADMIN row satisfies it via the
check's short-circuit), then the grants are applied inside one transaction
— an error on any grant rolls the whole batch back. -/
def setPermissionsBulk (s : VaultState) (documentId : Nat)
    (grants : List PermissionGrant) (grantedBy : Nat) :
    Except Err (VaultState × List AclRow) :=
  match docGetById s documentId with
  | none => .error .documentNotFound
  | some _ =>
    if !(aclCheckPermission s documentId grantedBy "SHARE") then
      .error .permissionDenied
    else
      match grants.foldlM (applyGrant s documentId grantedBy)
          (s.acls, ([] : List AclRow)) with
      | .error e => .error e
      | .ok (acls2, updated) => .ok ({ s with acls := acls2 }, updated)

/-- `AccessService.get_permissions_detailed` (the body of the public
`get_permissions`): the document must exist; the rows are returned —
optionally filtered to one agent — with no permission check of any kind. -/
def getPermissionsDetailed (s : VaultState) (documentId : Nat)
    (agentFilter : Option Nat) : Except Err (List AclRow) :=
  match docGetById s documentId with
  | none => .error .documentNotFound
  | some _ =>
    let acls := s.acls.filter (fun r => r.documentId == documentId)
    let acls := match agentFilter with
      | some a => acls.filter (fun r => r.agentId == a)
      | none => acls
    .ok acls

/-- `AccessService.get_document_permissions` (the legacy path behind
`AccessService.get_permissions`): caller must exist, the document must exist
and not be soft-deleted, and the caller must hold ADMIN, else
PermissionDenied. -/
def getDocumentPermissions (s : VaultState) (documentId agentId : Nat) :
    Except Err (List AclRow) :=
  if !(agentExists s agentId) then .error .agentNotFound
  else
    match docGetById s documentId with
    | none => .error .documentNotFound
    | some d =>
      if d.status == "deleted" then .error .documentNotFound
      else if !(aclCheckPermission s documentId agentId "ADMIN") then
        .error .permissionDenied
      else .ok (s.acls.filter (fun r => r.documentId == documentId))

/-- `AccessService.transfer_ownership`: the document must exist (no
soft-delete test, no grant requirement on `fromAgentId`, no existence test
on `toAgentId`); authorization passes when `authorizedBy` equals
`fromAgentId` or holds ADMIN; then every (document, from, ADMIN) row is
deleted and a fresh ADMIN row for `toAgentId` is inserted. -/
def transferOwnership (s : VaultState)
    (documentId fromAgentId toAgentId authorizedBy : Nat) :
    Except Err (VaultState × List AclRow) :=
  match docGetById s documentId with
  | none => .error .documentNotFound
  | some _ =>
    let isOwner := fromAgentId == authorizedBy
    let isAdmin := aclCheckPermission s documentId authorizedBy "ADMIN"
    if !(isOwner || isAdmin) then .error .permissionDenied
    else
      let acls1 := s.acls.filter (fun r =>
        !(r.documentId == documentId && r.agentId == fromAgentId &&
          r.permission == "ADMIN"))
      let newAdmin : AclRow :=
        { documentId := documentId, agentId := toAgentId,
          permission := "ADMIN", grantedBy := authorizedBy,
          expiresAt := none }
      .ok ({ s with acls := acls1 ++ [newAdmin] }, [newAdmin])

/-- `AccessService.check_permission`: validate the level, require the agent
and a non-deleted document, then consult the ACL engine. -/
def checkPermissionSvc (s : VaultState) (documentId agentId : Nat)
    (permission : String) : Except Err Bool :=
  if !(validPermission permission) then .error .validation
  else if !(agentExists s agentId) then .error .agentNotFound
  else
    match docGetById s documentId with
    | none => .error .documentNotFound
    | some d =>
      if d.status == "deleted" then .error .documentNotFound
      else .ok (aclCheckPermission s documentId agentId permission)

/-- `AccessService.check_permissions_multi`: agent and document must exist
(no soft-delete test, no level validation); one ACL check per requested
level, with `all_granted` / `any_granted` folds. -/
def checkPermissionsMulti (s : VaultState) (documentId agentId : Nat)
    (permissions : List String) :
    Except Err (List (String × Bool) × Bool × Bool) :=
  if !(agentExists s agentId) then .error .agentNotFound
  else
    match docGetById s documentId with
    | none => .error .documentNotFound
    | some _ =>
      let results := permissions.map (fun p =>
        (p, aclCheckPermission s documentId agentId p))
      .ok (results, results.all (fun r => r.2), results.any (fun r => r.2))

/-! ## Registration and restore -/

/-- `OrganizationService.register_organization`: insert the caller-issued
id (a duplicate insert would violate the primary key). -/
def registerOrganization (s : VaultState) (orgId : Nat) :
    Except Err VaultState :=
  if s.orgs.contains orgId then .error .database
  else .ok { s with orgs := s.orgs ++ [orgId] }

/-- `AgentService.register_agent`: the organization must exist, then insert
the caller-issued agent id. -/
def registerAgent (s : VaultState) (agentId orgId : Nat) :
    Except Err VaultState :=
  if !(orgExists s orgId) then .error .organizationNotFound
  else if s.agents.contains agentId then .error .database
  else .ok { s with agents := s.agents ++ [agentId] }

/-- Modelled from the spec: `services/version_service.py`
(VersionService.restore_version) is absent from the tree.  Per §4.2 the
operation reads the target historical version's stored bytes and delegates
to createVersion with changeType "restore": the next version number is
allocated, a new immutable object is written, the version row is inserted
and the document row mirrors it, all inside one transaction. -/
def restoreVersion (s : VaultState) (documentId versionNumber agentId : Nat)
    (changeDescription : String) (storageOk : Bool) :
    Except Err (VaultState × VersionRow) :=
  if !(agentExists s agentId) then .error .agentNotFound
  else
    match docGetById s documentId with
    | none => .error .documentNotFound
    | some document =>
      if document.status == "deleted" then .error .documentNotFound
      else if !(aclCheckPermission s documentId agentId "WRITE") then
        .error .permissionDenied
      else
        match s.versions.find? (fun v =>
            v.documentId == documentId &&
              v.versionNumber == versionNumber) with
        | none => .error .documentNotFound
        | some target =>
          let bucket := bucketName document.organizationId
          match s.objects.find? (fun o =>
              o.1 == (bucket, target.storagePath)) with
          | none => .error .storage
          | some obj =>
            let newNum := document.currentVersion + 1
            let newPath :=
              generateStoragePath documentId newNum target.filename
            if !storageOk then .error .storage
            else
              let docs := documentRepoUpdate s.documents documentId (fun d =>
                { d with currentVersion := newNum,
                         filename := target.filename,
                         fileSize := target.fileSize,
                         mimeType := target.mimeType,
                         storagePath := newPath })
              let verRow : VersionRow :=
                { rowId := s.nextId, documentId := documentId,
                  versionNumber := newNum, filename := target.filename,
                  fileSize := target.fileSize, mimeType := target.mimeType,
                  storagePath := newPath,
                  changeDescription := changeDescription,
                  changeType := "restore", createdBy := agentId }
              .ok ({ s with
                      documents := docs,
                      versions := s.versions ++ [verRow],
                      objects := storagePut s.objects bucket newPath obj.2,
                      nextId := s.nextId + 1 }, verRow)

deriving instance DecidableEq for Except

/-! ## Concrete scenario states -/

/-- C1 scenario: an organization with one registered agent and no
documents; ids are issued from 100 so that table keys and version numbers
live in disjoint ranges, as UUIDs and small integers do in the source. -/
def c1s0 : VaultState :=
  { orgs := [1], agents := [10], documents := [], versions := [], acls := [],
    objects := [], nextId := 100, now := 0 }

/-- C2 scenario: document 1 with an unexpired ADMIN grant for agent 10 and
an unexpired READ grant for agent 20. -/
def c2s : VaultState :=
  { orgs := [1], agents := [10, 20],
    documents := [{ id := 1, organizationId := 1, name := "Doc",
                    filename := "a.txt", fileSize := 3,
                    mimeType := "text/plain", storagePath := "1/v1/a.txt",
                    pfx := none, path := some "/Doc", currentVersion := 1,
                    status := "active", createdBy := 10 }],
    versions := [{ rowId := 101, documentId := 1, versionNumber := 1,
                   filename := "a.txt", fileSize := 3,
                   mimeType := "text/plain", storagePath := "1/v1/a.txt",
                   changeDescription := "Initial upload",
                   changeType := "create", createdBy := 10 }],
    acls := [{ documentId := 1, agentId := 10, permission := "ADMIN",
               grantedBy := 10, expiresAt := none },
             { documentId := 1, agentId := 20, permission := "READ",
               grantedBy := 10, expiresAt := none }],
    objects := [(("doc-vault-org-1", "1/v1/a.txt"), "abc")],
    nextId := 200, now := 0 }

/-- C3 scenario: document 1 owned by agent 10's organization but with an
empty ACL table, plus a second registered agent 30 holding nothing. -/
def c3s : VaultState :=
  { orgs := [1], agents := [10, 30],
    documents := [{ id := 1, organizationId := 1, name := "Doc",
                    filename := "a.txt", fileSize := 3,
                    mimeType := "text/plain", storagePath := "1/v1/a.txt",
                    pfx := none, path := some "/Doc", currentVersion := 1,
                    status := "active", createdBy := 10 }],
    versions := [], acls := [], objects := [], nextId := 200, now := 0 }

/-- C7 scenario: document 1 at version 1 whose single version row has
primary key 101 (disjoint from the version number 1, as a UUID is from an
integer), and agent 10 holding ADMIN. -/
def c7s : VaultState :=
  { orgs := [1], agents := [10],
    documents := [{ id := 1, organizationId := 1, name := "Doc",
                    filename := "a.txt", fileSize := 3,
                    mimeType := "text/plain", storagePath := "1/v1/a.txt",
                    pfx := none, path := some "/Doc", currentVersion := 1,
                    status := "active", createdBy := 10 }],
    versions := [{ rowId := 101, documentId := 1, versionNumber := 1,
                   filename := "a.txt", fileSize := 3,
                   mimeType := "text/plain", storagePath := "1/v1/a.txt",
                   changeDescription := "Initial upload",
                   changeType := "create", createdBy := 10 }],
    acls := [{ documentId := 1, agentId := 10, permission := "ADMIN",
               grantedBy := 10, expiresAt := none }],
    objects := [(("doc-vault-org-1", "1/v1/a.txt"), "abc")],
    nextId := 200, now := 0 }

/-! ## C1 -/

/-- C1: the upload-or-version dispatch never finds the existing document.
`_find_existing_document` passes the exact-match marker `^name$` as the
query, but `search_by_name` embeds the query in `name ILIKE '%'||q||'%'`,
where `^` and `$` are literal characters; the pattern therefore matches no
stored name.  A second upload of "Report.pdf" into the same organization
and prefix with createVersion=true consequently creates a brand-new
document (fresh id 102, current_version 1, two document rows, the first
document still holding exactly one version row) instead of returning the
first document id with current_version 2 — contradicting the claim, the
spec's Scenario B, and the repository's own test
`test_create_version_when_document_exists`, which asserts
`doc2.id == initial_id` and `doc2.current_version == 2`. -/
theorem second_upload_creates_new_document :
    (match uploadEnhanced c1s0 "v1 content" "Report.pdf" 1 10
        (some "text/plain") none (some "/reports/2025/") true none true with
     | .ok (s1, .doc d1) =>
       d1.id == 100 && d1.currentVersion == 1 &&
         (match uploadEnhanced s1 "v2 content" "Report.pdf" 1 10 none none
             (some "/reports/2025/") true (some "upd") true with
          | .ok (s2, .doc d2) =>
            d2.id == 102 && d2.id != d1.id && d2.currentVersion == 1 &&
              s2.documents.length == 2 &&
              (s2.versions.filter (fun v => v.documentId == d1.id)).length
                == 1
          | _ => false)
     | _ => false) = true := by decide

/-! ## C2 -/

/-- C2 counterexample: agent 20 holds only READ on document 1, yet the
public getPermissions path (`get_permissions_detailed`) returns its ACL row
instead of raising PermissionDenied — with the agent argument acting as a
mere filter; unfiltered, the same caller would receive both rows. -/
theorem get_permissions_read_only_counterexample :
    getPermissionsDetailed c2s 1 (some 20) =
      .ok [{ documentId := 1, agentId := 20, permission := "READ",
             grantedBy := 10, expiresAt := none }] ∧
    (match getPermissionsDetailed c2s 1 none with
     | .ok rows => rows.length == 2
     | .error _ => false) = true := by
  constructor
  · decide
  · decide

/-- C2 amended: the public getPermissions operation
(`get_permissions_detailed`, reached from `DocVaultSDK.get_permissions`)
performs no permission check at all — it returns the ACL rows of any
existing document to any caller; only the legacy
`AccessService.get_document_permissions` path behind
`AccessService.get_permissions` requires ADMIN and raises PermissionDenied
for every caller without an unexpired ADMIN grant. -/
theorem get_permissions_amended (s : VaultState) (documentId agentId : Nat)
    (doc : Document) (hdoc : docGetById s documentId = some doc) :
    (∀ agentFilter, ∃ rows,
        getPermissionsDetailed s documentId agentFilter = .ok rows) ∧
    (agentExists s agentId = true → doc.status ≠ "deleted" →
      aclCheckPermission s documentId agentId "ADMIN" = false →
      getDocumentPermissions s documentId agentId =
        .error .permissionDenied) := by
  constructor
  · intro agentFilter
    cases agentFilter with
    | none =>
      simp only [getPermissionsDetailed, hdoc]
      exact ⟨_, rfl⟩
    | some a =>
      simp only [getPermissionsDetailed, hdoc]
      exact ⟨_, rfl⟩
  · intro hagent hnd hadm
    simp [getDocumentPermissions, hagent, hdoc, hadm,
      beq_eq_false_iff_ne.mpr hnd]

/-- C2 amended, instantiated: in the concrete two-agent state, the detailed
path answers agent 20 and the legacy path denies it. -/
theorem get_permissions_amended_witness :
    (∀ agentFilter, ∃ rows,
        getPermissionsDetailed c2s 1 agentFilter = .ok rows) ∧
    (agentExists c2s 20 = true → ¬("active" = "deleted") →
      aclCheckPermission c2s 1 20 "ADMIN" = false →
      getDocumentPermissions c2s 1 20 = .error .permissionDenied) :=
  get_permissions_amended c2s 1 20
    { id := 1, organizationId := 1, name := "Doc", filename := "a.txt",
      fileSize := 3, mimeType := "text/plain", storagePath := "1/v1/a.txt",
      pfx := none, path := some "/Doc", currentVersion := 1,
      status := "active", createdBy := 10 } (by decide)

/-! ## C3 -/

/-- C3: `transfer_ownership` authorizes any call with
`authorized_by == from_agent_id`; it never checks that the from-agent holds
ADMIN (or anything) on the document, nor that the to-agent exists.  For any
state in which the document exists, an agent `a` holding no grants at all
can call transfer_ownership(D, a, a, a): the call succeeds and leaves `a`
holding an unexpired ADMIN grant on D. -/
theorem transfer_ownership_self_grants_admin (s : VaultState)
    (documentId a : Nat) (doc : Document)
    (hdoc : docGetById s documentId = some doc) :
    ∃ s2, transferOwnership s documentId a a a =
        .ok (s2, [{ documentId := documentId, agentId := a,
                    permission := "ADMIN", grantedBy := a,
                    expiresAt := none }]) ∧
      ({ documentId := documentId, agentId := a, permission := "ADMIN",
         grantedBy := a, expiresAt := none } : AclRow) ∈ s2.acls ∧
      aclCheckPermission s2 documentId a "ADMIN" = true := by
  refine ⟨{ s with acls := s.acls.filter (fun r =>
      !(r.documentId == documentId && r.agentId == a &&
        r.permission == "ADMIN")) ++
      [{ documentId := documentId, agentId := a, permission := "ADMIN",
         grantedBy := a, expiresAt := none }] }, ?_, ?_, ?_⟩
  · simp [transferOwnership, hdoc]
  · simp
  · simp [aclCheckPermission, aclActive, List.any_append]

/-- C3, instantiated: in the concrete state with an empty ACL table, agent
30 transfers document 1 to itself and ends up with ADMIN. -/
theorem transfer_ownership_self_grants_admin_witness :
    ∃ s2, transferOwnership c3s 1 30 30 30 =
        .ok (s2, [{ documentId := 1, agentId := 30, permission := "ADMIN",
                    grantedBy := 30, expiresAt := none }]) ∧
      ({ documentId := 1, agentId := 30, permission := "ADMIN",
         grantedBy := 30, expiresAt := none } : AclRow) ∈ s2.acls ∧
      aclCheckPermission s2 1 30 "ADMIN" = true :=
  transfer_ownership_self_grants_admin c3s 1 30
    { id := 1, organizationId := 1, name := "Doc", filename := "a.txt",
      fileSize := 3, mimeType := "text/plain", storagePath := "1/v1/a.txt",
      pfx := none, path := some "/Doc", currentVersion := 1,
      status := "active", createdBy := 10 } (by decide)

/-! ## C7 -/

/-- C7: replacing content with create_version=false updates the document
row's filename/size/mime and leaves current_version and the version table's
shape unchanged, but it does NOT update the current-version row in place:
the source passes `document.current_version` (the version *number*, here 1)
to `version_repo.update`, which expects the version row's primary key (a
UUID in the source, here 101); no row matches, so the current-version row
keeps its old filename/size/mime — contradicting the claim, the spec's
§4.2 `replaceInPlace` contract, and the source's own comment "Update the
current version record with new metadata". -/
theorem replace_in_place_misses_version_row :
    (match replaceDocumentContent c7s 1 "newbytes" 10 "fix" false none
        (some "b.txt") true with
     | .ok (s2, .doc d) =>
       d.filename == "b.txt" && d.currentVersion == 1 &&
         (s2.documents.map (fun dd => dd.filename)) == ["b.txt"] &&
         s2.versions == c7s.versions &&
         (s2.versions.map (fun v => v.filename)) == ["a.txt"]
     | _ => false) = true := by decide

/-! ## C9 -/

/-- An unexpired ADMIN row makes the ACL check succeed at every level
(the short-circuit of `ACLRepository.check_permission`). -/
theorem aclCheck_of_admin_row (s : VaultState) (documentId agentId gb : Nat)
    (exp : Option Nat) (p : String)
    (hrow : ({ documentId := documentId, agentId := agentId,
               permission := "ADMIN", grantedBy := gb,
               expiresAt := exp } : AclRow) ∈ s.acls)
    (hact : aclActive s.now
        { documentId := documentId, agentId := agentId,
          permission := "ADMIN", grantedBy := gb, expiresAt := exp } =
      true) :
    aclCheckPermission s documentId agentId p = true := by
  unfold aclCheckPermission
  rw [List.any_eq_true]
  refine ⟨_, hrow, ?_⟩
  simp [hact]

/-- C9: for a (document, agent) pair holding an unexpired ADMIN grant,
`check_permission` answers true at every one of the five levels with no
separate grant row, and `check_permissions_multi` over all five levels
returns every level true with `all_granted`. -/
theorem admin_short_circuits_every_level (s : VaultState)
    (documentId agentId gb : Nat) (exp : Option Nat) (doc : Document)
    (level : String)
    (hrow : ({ documentId := documentId, agentId := agentId,
               permission := "ADMIN", grantedBy := gb,
               expiresAt := exp } : AclRow) ∈ s.acls)
    (hact : aclActive s.now
        { documentId := documentId, agentId := agentId,
          permission := "ADMIN", grantedBy := gb, expiresAt := exp } =
      true)
    (hagent : agentExists s agentId = true)
    (hdoc : docGetById s documentId = some doc)
    (hnd : doc.status ≠ "deleted")
    (hlvl : validPermission level = true) :
    checkPermissionSvc s documentId agentId level = .ok true ∧
    checkPermissionsMulti s documentId agentId
        ["READ", "WRITE", "DELETE", "SHARE", "ADMIN"] =
      .ok ([("READ", true), ("WRITE", true), ("DELETE", true),
            ("SHARE", true), ("ADMIN", true)], true, true) := by
  have hc : ∀ p, aclCheckPermission s documentId agentId p = true :=
    fun p => aclCheck_of_admin_row s documentId agentId gb exp p hrow hact
  constructor
  · simp [checkPermissionSvc, hlvl, hagent, hdoc,
      beq_eq_false_iff_ne.mpr hnd, hc level]
  · simp [checkPermissionsMulti, hagent, hdoc, hc]

/-- C9, instantiated: agent 10 holds one unexpired ADMIN row on document 1
and passes the WRITE check and all five multi-checks. -/
theorem admin_short_circuits_every_level_witness :
    checkPermissionSvc c2s 1 10 "WRITE" = .ok true ∧
    checkPermissionsMulti c2s 1 10
        ["READ", "WRITE", "DELETE", "SHARE", "ADMIN"] =
      .ok ([("READ", true), ("WRITE", true), ("DELETE", true),
            ("SHARE", true), ("ADMIN", true)], true, true) :=
  admin_short_circuits_every_level c2s 1 10 10 none
    { id := 1, organizationId := 1, name := "Doc", filename := "a.txt",
      fileSize := 3, mimeType := "text/plain", storagePath := "1/v1/a.txt",
      pfx := none, path := some "/Doc", currentVersion := 1,
      status := "active", createdBy := 10 } "WRITE"
    (by decide) (by decide) (by decide) (by decide) (by decide) (by decide)

/-! ## C10 -/

/-- C10: document creation rejects, with a Validation error, every prefix
that does not start with `/`, does not end with `/`, or contains `//` (the
pydantic `DocumentCreate` validator fires before any row or blob is
written); every accepted creation sets path = prefix ++ name when a prefix
is supplied, and path = "/" ++ name when none is. -/
theorem prefix_validation_and_path (s : VaultState) (content name : String)
    (orgId agentId : Nat) (ct fn : Option String) (storageOk : Bool) :
    (∀ p : String,
      (strStartsWith p "/" = false ∨ strEndsWith p "/" = false ∨
        containsSub p "//" = true) →
      createNewDocument s content name orgId agentId ct fn (some p)
          storageOk = .error .validation) ∧
    (∀ pfxArg s2 d,
      createNewDocument s content name orgId agentId ct fn pfxArg storageOk =
          .ok (s2, d) →
      d.path = some (match pfxArg with
        | some p => p ++ name
        | none => "/" ++ name)) := by
  constructor
  · intro p hbad
    have hp : prefixOk (some p) = false := by
      rcases hbad with h | h | h <;> simp [prefixOk, h]
    simp [createNewDocument, hp]
  · intro pfxArg s2 d h
    by_cases hp : prefixOk pfxArg = true
    · by_cases hs : storageOk = true
      · simp [createNewDocument, hp, hs] at h
        obtain ⟨-, rfl⟩ := h
        cases pfxArg with
        | none => simp [mkPath]
        | some p =>
          have hne : (p == "") = false := by
            rcases eq_or_ne p "" with he | he
            · subst he; exact absurd hp (by decide)
            · exact beq_eq_false_iff_ne.mpr he
          simp [mkPath, hne]
      · simp [createNewDocument, hp,
          Bool.eq_false_iff.mpr hs] at h
    · simp [createNewDocument, Bool.eq_false_iff.mpr hp] at h

/-- C10, instantiated: the three malformed prefixes are each rejected and
an accepted creation at prefix "/reports/2025/" yields
path "/reports/2025/Report.pdf". -/
theorem prefix_validation_and_path_witness :
    (strStartsWith "reports/" "/" = false ∨
      strEndsWith "reports/" "/" = false ∨
      containsSub "reports/" "//" = true) →
    createNewDocument c1s0 "body" "Report.pdf" 1 10 none none
        (some "reports/") true = .error .validation := by
  intro h
  exact (prefix_validation_and_path c1s0 "body" "Report.pdf" 1 10 none none
    true).1 "reports/" h

/-! ## C4 -/

/-- C4: if the object-store write fails during upload of a brand-new
document, the whole creation is rolled back by the enclosing transaction:
the call surfaces StorageError to its caller, whose state is therefore
still the entry state, in which (by key freshness) no document row, no
version row and no ACL row for the attempted document id exist. -/
theorem upload_storage_failure_leaves_no_rows (s : VaultState)
    (content name : String) (orgId agentId : Nat)
    (ct fn pfxArg : Option String)
    (hagent : agentExists s agentId = true)
    (horg : orgExists s orgId = true)
    (hfind : findExistingDocument s name orgId pfxArg = none)
    (hpfx : prefixOk pfxArg = true)
    (hfresh : (∀ d ∈ s.documents, d.id < s.nextId) ∧
              (∀ v ∈ s.versions, v.documentId < s.nextId) ∧
              (∀ r ∈ s.acls, r.documentId < s.nextId)) :
    uploadEnhanced s content name orgId agentId ct fn pfxArg true none
        false = .error .storage ∧
    (∀ d ∈ s.documents, d.id ≠ s.nextId) ∧
    (∀ v ∈ s.versions, v.documentId ≠ s.nextId) ∧
    (∀ r ∈ s.acls, r.documentId ≠ s.nextId) := by
  refine ⟨?_, fun d hd => Nat.ne_of_lt (hfresh.1 d hd),
    fun v hv => Nat.ne_of_lt (hfresh.2.1 v hv),
    fun r hr => Nat.ne_of_lt (hfresh.2.2 r hr)⟩
  simp [uploadEnhanced, hagent, horg, hfind, createNewDocument, hpfx]

/-- C4, instantiated: an upload of a brand-new document into the fresh
state with a failing object store returns StorageError, and the state holds
no row for the attempted document id 100. -/
theorem upload_storage_failure_leaves_no_rows_witness :
    uploadEnhanced c1s0 "body" "Report.pdf" 1 10 none none
        (some "/reports/2025/") true none false = .error .storage ∧
    (∀ d ∈ c1s0.documents, d.id ≠ c1s0.nextId) ∧
    (∀ v ∈ c1s0.versions, v.documentId ≠ c1s0.nextId) ∧
    (∀ r ∈ c1s0.acls, r.documentId ≠ c1s0.nextId) :=
  upload_storage_failure_leaves_no_rows c1s0 "body" "Report.pdf" 1 10 none
    none (some "/reports/2025/") (by decide) (by decide) (by decide)
    (by decide) (by decide)

/-! ## C5 -/

/-- C5 scenario, built by running the operations themselves: agent 10
uploads "Budget.xlsx" (receiving ADMIN) into an otherwise empty
organization. -/
def c5s1 : VaultState :=
  match uploadEnhanced c1s0 "body" "Budget.xlsx" 1 10 none none none true
      none true with
  | .ok (s, _) => s
  | .error _ => c1s0

/-- C5 scenario continued: agent 10 soft-deletes its document. -/
def c5s2 : VaultState :=
  match deleteDocument c5s1 100 10 false with
  | .ok s => s
  | .error _ => c5s1

/-- C5 counterexample: after the soft delete, `download` does fail with
NotFound, but the unfiltered organization-wide listing
(`list_documents_paginated` with no prefix, tags or status filter, backed
by `get_by_organization`, whose query has no `status != 'deleted'` clause)
still returns the soft-deleted document to its ADMIN holder — so
soft-deleted documents are not invisible on every public read path. -/
theorem soft_deleted_document_listed_counterexample :
    (match listDocumentsPaginated c5s2 1 10 none false none none false
        50 0 with
     | .ok l => l.any (fun d => d.id == 100 && d.status == "deleted")
     | .error _ => false) = true ∧
    downloadDocument c5s2 100 10 none = .error .documentNotFound := by
  constructor
  · decide
  · decide

/-- C5 amended: after a document is soft-deleted, `download` raises
NotFound for every existing agent (ADMIN included), and the prefix-scoped
listings exclude it; but the unfiltered organization-wide `listDocuments`
(no prefix, no tags, no status filter) still returns the soft-deleted
document to any agent holding READ on it, because
`get_by_organization` applies no deleted-status exclusion. -/
theorem soft_delete_visibility_amended (s : VaultState)
    (documentId agentId orgId lim : Nat) (doc : Document)
    (hdoc : docGetById s documentId = some doc)
    (hdel : doc.status = "deleted") :
    (agentExists s agentId = true → ∀ v,
      downloadDocument s documentId agentId v = .error .documentNotFound) ∧
    (∀ p limit off d2, d2 ∈ listByPrefix s orgId p limit off →
      d2.status ≠ "deleted") ∧
    (∀ p maxDepth limit off d2,
      d2 ∈ listRecursive s orgId p maxDepth limit off →
      d2.status ≠ "deleted") ∧
    (doc ∈ s.documents → doc.organizationId = orgId →
      agentExists s agentId = true → orgExists s orgId = true →
      aclCheckPermission s doc.id agentId "READ" = true →
      1 ≤ lim → lim ≤ 1000 → s.documents.length ≤ lim →
      ∃ l, listDocumentsPaginated s orgId agentId none false none none
          false lim 0 = .ok l ∧ doc ∈ l) := by
  refine ⟨?_, ?_, ?_, ?_⟩
  · intro hagent v
    simp [downloadDocument, hagent, hdoc, hdel]
  · intro p limit off d2 hd2
    unfold listByPrefix at hd2
    have h2 := List.mem_of_mem_drop (List.mem_of_mem_take hd2)
    have h3 := (List.mem_filter.mp h2).2
    simp only [Bool.and_eq_true, bne_iff_ne, ne_eq] at h3
    exact h3.2
  · intro p maxDepth limit off d2 hd2
    unfold listRecursive at hd2
    dsimp only at hd2
    have h2 := List.mem_of_mem_drop (List.mem_of_mem_take hd2)
    have h3 := (List.mem_filter.mp h2).2
    cases maxDepth with
    | none =>
      simp only [Bool.and_eq_true, bne_iff_ne, ne_eq] at h3
      exact h3.2
    | some md =>
      simp only [Bool.and_eq_true, bne_iff_ne, ne_eq] at h3
      exact h3.1.2
  · intro hmem horgid hagent horg hread h1 h1000 hlen
    refine ⟨(getByOrganization s orgId none lim 0).filter
      (fun d => aclCheckPermission s d.id agentId "READ"), ?_, ?_⟩
    · simp [listDocumentsPaginated, hagent, horg, h1, h1000]
    · have hq : doc ∈ getByOrganization s orgId none lim 0 := by
        unfold getByOrganization
        have hf : doc ∈ s.documents.filter (fun d =>
            d.organizationId == orgId &&
              (match (none : Option String) with
               | none => true
               | some st => d.status == st)) :=
          List.mem_filter.mpr ⟨hmem, by simp [horgid]⟩
        rw [List.drop_zero, List.take_of_length_le]
        · exact hf
        · exact le_trans (List.length_filter_le _ _) hlen
      exact List.mem_filter.mpr ⟨hq, hread⟩

/-- The soft-deleted document row of the C5 scenario (what the upload and
soft delete produced for document 100). -/
def c5doc : Document :=
  { id := 100, organizationId := 1, name := "Budget.xlsx",
    filename := "Budget.xlsx.bin", fileSize := 4,
    mimeType := "application/octet-stream",
    storagePath := "100/v1/Budget.xlsx.bin", pfx := none,
    path := some "/Budget.xlsx", currentVersion := 1, status := "deleted",
    createdBy := 10 }

/-- C5 amended, instantiated: in the post-soft-delete state, download of
document 100 fails with NotFound for agent 10, prefix listings never expose
a deleted row, and the unfiltered listing returns the deleted document. -/
theorem soft_delete_visibility_amended_witness :
    (agentExists c5s2 10 = true → ∀ v,
      downloadDocument c5s2 100 10 v = .error .documentNotFound) ∧
    (∀ p limit off d2, d2 ∈ listByPrefix c5s2 1 p limit off →
      d2.status ≠ "deleted") ∧
    (∀ p maxDepth limit off d2,
      d2 ∈ listRecursive c5s2 1 p maxDepth limit off →
      d2.status ≠ "deleted") ∧
    (c5doc ∈ c5s2.documents → c5doc.organizationId = 1 →
      agentExists c5s2 10 = true → orgExists c5s2 1 = true →
      aclCheckPermission c5s2 c5doc.id 10 "READ" = true →
      1 ≤ 50 → 50 ≤ 1000 → c5s2.documents.length ≤ 50 →
      ∃ l, listDocumentsPaginated c5s2 1 10 none false none none false
          50 0 = .ok l ∧ c5doc ∈ l) :=
  soft_delete_visibility_amended c5s2 100 10 1 50 c5doc (by decide)
    (by decide)

/-! ## C8 -/

/-- The row-set effect of one grant of `set_permissions_bulk`: delete every
row for the exact (document, agent, permission) tuple, then (unless the
grant is a remove) insert a fresh row. -/
def applyGrantPure (documentId grantedBy : Nat) (acls : List AclRow)
    (g : PermissionGrant) : List AclRow :=
  if g.action == "remove" then
    acls.filter (fun r => !(grantMatches documentId g r))
  else
    acls.filter (fun r => !(grantMatches documentId g r)) ++
      [grantRow documentId grantedBy g]

/-- The row-set effect of a whole grant list. -/
def applyGrants (documentId grantedBy : Nat) (acls : List AclRow)
    (grants : List PermissionGrant) : List AclRow :=
  grants.foldl (applyGrantPure documentId grantedBy) acls

/-- Does some grant of the list target the row's exact tuple? -/
def matchesAny (documentId : Nat) (grants : List PermissionGrant)
    (r : AclRow) : Bool :=
  grants.any (fun g => grantMatches documentId g r)

/-- Whether one grant passes the per-grant checks inside the transaction
loop: the grantee exists, and either the action is a remove or the level is
one of the five permitted values. -/
def grantValid (s : VaultState) (g : PermissionGrant) : Bool :=
  agentExists s g.agentId &&
    (g.action == "remove" || validPermission g.permission)

/-- The caller-visible successor state of a bulk call: the returned state
when the call commits, the entry state when it errors (the transaction
rolled back). -/
def resultState (s : VaultState)
    (r : Except Err (VaultState × List AclRow)) : VaultState :=
  match r with
  | .ok (s2, _) => s2
  | .error _ => s

/-- Bind of a committed `Except` step. -/
theorem exceptBind_ok {ε α β : Type} (x : α) (k : α → Except ε β) :
    (Except.ok x >>= k) = k x := rfl

/-- Bind of a failed `Except` step. -/
theorem exceptBind_error {ε α β : Type} (e : ε) (k : α → Except ε β) :
    ((Except.error e : Except ε α) >>= k) = .error e := rfl

/-- One unfolding step of the pure effect. -/
theorem applyGrants_cons (documentId grantedBy : Nat)
    (g : PermissionGrant) (gs : List PermissionGrant) (Y : List AclRow) :
    applyGrants documentId grantedBy Y (g :: gs) =
      applyGrants documentId grantedBy
        (applyGrantPure documentId grantedBy Y g) gs := by
  unfold applyGrants
  rw [List.foldl_cons]

/-- Shape of the transaction loop: a successful fold applies exactly the
pure row-set effect, and every grant passed its checks. -/
theorem foldlM_applyGrant_ok (s : VaultState) (documentId grantedBy : Nat) :
    ∀ (grants : List PermissionGrant) (acls0 u0 acls2 u2 : List AclRow),
      grants.foldlM (applyGrant s documentId grantedBy) (acls0, u0) =
          .ok (acls2, u2) →
      acls2 = applyGrants documentId grantedBy acls0 grants ∧
        ∀ g ∈ grants, grantValid s g = true := by
  intro grants
  induction grants with
  | nil =>
    intro acls0 u0 acls2 u2 h
    simp [List.foldlM, pure, Except.pure] at h
    simp [applyGrants, h.1]
  | cons g gs ih =>
    intro acls0 u0 acls2 u2 h
    rw [List.foldlM_cons] at h
    by_cases hA : agentExists s g.agentId = true
    · by_cases hR : (g.action == "remove") = true
      · simp only [applyGrant, hA, hR, Bool.not_true, Bool.false_eq_true,
          if_false, if_true, exceptBind_ok] at h
        obtain ⟨h1, h2⟩ := ih _ _ _ _ h
        refine ⟨?_, ?_⟩
        · rw [h1, applyGrants_cons]
          unfold applyGrantPure
          rw [if_pos hR]
        · intro g2 hg2
          rcases List.mem_cons.mp hg2 with rfl | hmem
          · simp [grantValid, hA, hR]
          · exact h2 g2 hmem
      · by_cases hV : validPermission g.permission = true
        · simp only [applyGrant, hA, hR, hV, Bool.not_true,
            Bool.false_eq_true, if_false, exceptBind_ok] at h
          obtain ⟨h1, h2⟩ := ih _ _ _ _ h
          refine ⟨?_, ?_⟩
          · rw [h1, applyGrants_cons]
            unfold applyGrantPure
            rw [if_neg hR]
          · intro g2 hg2
            rcases List.mem_cons.mp hg2 with rfl | hmem
            · simp [grantValid, hA, hV]
            · exact h2 g2 hmem
        · simp only [applyGrant, hA, hR, hV, Bool.not_true,
            Bool.false_eq_true, if_false, ite_false, ite_true,
            Bool.not_eq_true, exceptBind_error] at h
          simp [Bool.eq_false_iff.mpr hV, exceptBind_error] at h
    · simp only [applyGrant] at h
      rw [Bool.eq_false_iff.mpr hA] at h
      simp [exceptBind_error] at h

/-- Converse shape of the transaction loop: when every grant passes its
checks, the fold commits and its row set is the pure effect. -/
theorem foldlM_applyGrant_of_valid (s : VaultState)
    (documentId grantedBy : Nat) :
    ∀ (grants : List PermissionGrant) (acls0 u0 : List AclRow),
      (∀ g ∈ grants, grantValid s g = true) →
      ∃ u2, grants.foldlM (applyGrant s documentId grantedBy) (acls0, u0) =
        .ok (applyGrants documentId grantedBy acls0 grants, u2) := by
  intro grants
  induction grants with
  | nil =>
    intro acls0 u0 _
    exact ⟨u0, by simp [List.foldlM, applyGrants, pure, Except.pure]⟩
  | cons g gs ih =>
    intro acls0 u0 hvalid
    have hg := hvalid g (List.mem_cons_self g gs)
    simp only [grantValid, Bool.and_eq_true, Bool.or_eq_true] at hg
    rw [List.foldlM_cons]
    by_cases hR : (g.action == "remove") = true
    · obtain ⟨u2, hu2⟩ := ih (applyGrantPure documentId grantedBy acls0 g) u0
        (fun g2 hg2 => hvalid g2 (List.mem_cons_of_mem g hg2))
      refine ⟨u2, ?_⟩
      simp only [applyGrant, hg.1, hR, Bool.not_true, Bool.false_eq_true,
        if_false, if_true, exceptBind_ok]
      rw [applyGrants_cons]
      have hpure : applyGrantPure documentId grantedBy acls0 g =
          acls0.filter (fun r => !(grantMatches documentId g r)) := by
        unfold applyGrantPure
        rw [if_pos hR]
      rw [← hpure]
      exact hu2
    · have hV : validPermission g.permission = true := by
        rcases hg.2 with h | h
        · exact absurd h hR
        · exact h
      obtain ⟨u2, hu2⟩ := ih (applyGrantPure documentId grantedBy acls0 g)
        (u0 ++ [grantRow documentId grantedBy g])
        (fun g2 hg2 => hvalid g2 (List.mem_cons_of_mem g hg2))
      refine ⟨u2, ?_⟩
      simp only [applyGrant, hg.1, hR, hV, Bool.not_true,
        Bool.false_eq_true, if_false, exceptBind_ok]
      rw [applyGrants_cons]
      have hpure : applyGrantPure documentId grantedBy acls0 g =
          acls0.filter (fun r => !(grantMatches documentId g r)) ++
            [grantRow documentId grantedBy g] := by
        unfold applyGrantPure
        rw [if_neg hR]
      rw [← hpure]
      exact hu2

/-- Structure of the pure effect: the grant list wipes every row matching
any of its tuples and contributes a block that depends only on the grants
themselves. -/
theorem applyGrants_eq_filter_append (documentId grantedBy : Nat) :
    ∀ (grants : List PermissionGrant) (X : List AclRow),
      applyGrants documentId grantedBy X grants =
        X.filter (fun r => !(matchesAny documentId grants r)) ++
          applyGrants documentId grantedBy [] grants := by
  intro grants
  induction grants with
  | nil => intro X; simp [applyGrants, matchesAny]
  | cons g gs ih =>
    intro X
    rw [applyGrants_cons, ih (applyGrantPure documentId grantedBy X g)]
    conv_rhs =>
      rw [applyGrants_cons, ih (applyGrantPure documentId grantedBy [] g)]
    have hpred : (X.filter (fun r => !(grantMatches documentId g r))).filter
          (fun r => !(matchesAny documentId gs r)) =
        X.filter (fun r => !(matchesAny documentId (g :: gs) r)) := by
      rw [List.filter_filter]
      apply List.filter_congr
      intro r _
      simp only [matchesAny, List.any_cons, Bool.not_or]
      cases grantMatches documentId g r <;>
        cases gs.any (fun g2 => grantMatches documentId g2 r) <;> rfl
    by_cases hR : (g.action == "remove") = true
    · have hstepX : applyGrantPure documentId grantedBy X g =
          X.filter (fun r => !(grantMatches documentId g r)) := by
        unfold applyGrantPure
        rw [if_pos hR]
      have hstepN : applyGrantPure documentId grantedBy [] g = [] := by
        unfold applyGrantPure
        rw [if_pos hR]
        rfl
      rw [hstepX, hstepN, hpred]
      simp
    · have hstepX : applyGrantPure documentId grantedBy X g =
          X.filter (fun r => !(grantMatches documentId g r)) ++
            [grantRow documentId grantedBy g] := by
        unfold applyGrantPure
        rw [if_neg hR]
      have hstepN : applyGrantPure documentId grantedBy [] g =
          [grantRow documentId grantedBy g] := by
        unfold applyGrantPure
        rw [if_neg hR]
        rfl
      rw [hstepX, hstepN, List.filter_append, hpred]
      simp [List.append_assoc]

/-- Every row the pure effect can output either carries a tuple of the
grant list or was already present. -/
theorem mem_applyGrants (documentId grantedBy : Nat) :
    ∀ (grants : List PermissionGrant) (X : List AclRow) (r : AclRow),
      r ∈ applyGrants documentId grantedBy X grants →
      matchesAny documentId grants r = true ∨ r ∈ X := by
  intro grants
  induction grants with
  | nil => intro X r h; right; exact h
  | cons g gs ih =>
    intro X r h
    have hstep : applyGrants documentId grantedBy X (g :: gs) =
        applyGrants documentId grantedBy
          (applyGrantPure documentId grantedBy X g) gs := by
      unfold applyGrants
      rw [List.foldl_cons]
    rw [hstep] at h
    rcases ih _ r h with hm | hx
    · left
      simp only [matchesAny, List.any_cons, Bool.or_eq_true]
      right
      simpa [matchesAny] using hm
    · unfold applyGrantPure at hx
      by_cases hR : g.action == "remove"
      · rw [if_pos hR] at hx
        right
        exact (List.mem_filter.mp hx).1
      · rw [if_neg hR] at hx
        rcases List.mem_append.mp hx with h1 | h2
        · right
          exact (List.mem_filter.mp h1).1
        · left
          have : r = grantRow documentId grantedBy g := by
            simpa using h2
          subst this
          simp [matchesAny, List.any_cons, grantMatches, grantRow]

/-- Idempotence of the pure effect. -/
theorem applyGrants_idempotent (documentId grantedBy : Nat)
    (grants : List PermissionGrant) (X : List AclRow) :
    applyGrants documentId grantedBy
        (applyGrants documentId grantedBy X grants) grants =
      applyGrants documentId grantedBy X grants := by
  conv_lhs =>
    rw [applyGrants_eq_filter_append documentId grantedBy grants X,
      applyGrants_eq_filter_append documentId grantedBy grants _]
  conv_rhs =>
    rw [applyGrants_eq_filter_append documentId grantedBy grants X]
  rw [List.filter_append]
  have hX : (X.filter (fun r => !(matchesAny documentId grants r))).filter
      (fun r => !(matchesAny documentId grants r)) =
      X.filter (fun r => !(matchesAny documentId grants r)) := by
    rw [List.filter_filter]
    apply List.filter_congr
    intro r _
    rw [Bool.and_self]
  have hL : (applyGrants documentId grantedBy [] grants).filter
      (fun r => !(matchesAny documentId grants r)) = [] := by
    rw [List.filter_eq_nil_iff]
    intro r hr
    rcases mem_applyGrants documentId grantedBy grants [] r hr with hm | hx
    · simp [hm]
    · cases hx
  rw [hX, hL]
  simp

/-- Applying a grant list never leaves more than one row per grant tuple,
provided at most one was there to begin with: a step for the same tuple
first deletes every row of the tuple and inserts exactly one, a step for a
different tuple only deletes rows and inserts a non-matching one. -/
theorem countP_applyGrants_le_one (documentId grantedBy : Nat)
    (g : PermissionGrant) :
    ∀ (gs : List PermissionGrant) (X : List AclRow),
      X.countP (fun r => grantMatches documentId g r) ≤ 1 →
      (applyGrants documentId grantedBy X gs).countP
        (fun r => grantMatches documentId g r) ≤ 1 := by
  intro gs
  induction gs with
  | nil => intro X h; exact h
  | cons g2 gs2 ih =>
    intro X h
    rw [applyGrants_cons]
    apply ih
    have hfil : (X.filter (fun r =>
        !(grantMatches documentId g2 r))).countP
          (fun r => grantMatches documentId g r) ≤ 1 := by
      refine le_trans ?_ h
      rw [List.countP_filter]
      exact List.countP_mono_left (fun x _ hx =>
        (Bool.and_eq_true _ _ ▸ hx).1)
    unfold applyGrantPure
    by_cases hR : (g2.action == "remove") = true
    · rw [if_pos hR]
      exact hfil
    · rw [if_neg hR, List.countP_append]
      by_cases hm : grantMatches documentId g
          (grantRow documentId grantedBy g2) = true
      · have hag : g2.agentId = g.agentId ∧ g2.permission = g.permission := by
          simp [grantMatches, grantRow] at hm
          exact ⟨hm.1, hm.2⟩
        have h0 : (X.filter (fun r =>
            !(grantMatches documentId g2 r))).countP
              (fun r => grantMatches documentId g r) = 0 := by
          rw [List.countP_eq_zero]
          intro a ha
          obtain ⟨-, hnot⟩ := List.mem_filter.mp ha
          intro hga
          have : grantMatches documentId g2 a = true := by
            simp only [grantMatches, hag.1, hag.2]
            simpa [grantMatches] using hga
          simp [this] at hnot
        rw [h0, List.countP_singleton, if_pos hm]
      · rw [List.countP_singleton, if_neg hm]
        simpa using hfil

/-- C8: `set_permissions_bulk` is idempotent — after one successful call, a
second call with the identical grant list leaves the whole ACL table
unchanged (whether the second call commits or is denied), and the first
call leaves at most one row per granted (document, agent, permission)
tuple, because each grant first deletes every row for its exact tuple and
then inserts a single fresh one. -/
theorem set_permissions_bulk_idempotent (s : VaultState) (documentId : Nat)
    (grants : List PermissionGrant) (gb : Nat) (s1 : VaultState)
    (u1 : List AclRow)
    (h1 : setPermissionsBulk s documentId grants gb = .ok (s1, u1)) :
    (resultState s1 (setPermissionsBulk s1 documentId grants gb)).acls =
      s1.acls ∧
    ∀ g ∈ grants, g.action ≠ "remove" →
      s1.acls.countP (fun r => grantMatches documentId g r) ≤ 1 := by
  unfold setPermissionsBulk at h1
  cases hdoc : docGetById s documentId with
  | none =>
    rw [hdoc] at h1
    simp at h1
  | some doc =>
    rw [hdoc] at h1
    by_cases hshare : aclCheckPermission s documentId gb "SHARE" = true
    · rw [hshare] at h1
      simp only [Bool.not_true, Bool.false_eq_true, if_false] at h1
      cases hfold : grants.foldlM (applyGrant s documentId gb)
          (s.acls, ([] : List AclRow)) with
      | error e =>
        rw [hfold] at h1
        simp at h1
      | ok out =>
        rw [hfold] at h1
        obtain ⟨acls2, u2⟩ := out
        simp only [Except.ok.injEq, Prod.mk.injEq] at h1
        obtain ⟨hs1, -⟩ := h1
        obtain ⟨hacls2, hvalid⟩ :=
          foldlM_applyGrant_ok s documentId gb grants s.acls [] acls2 u2
            hfold
        subst hs1
        constructor
        · have hdoc1 : docGetById { s with acls := acls2 } documentId =
              some doc := hdoc
          by_cases hshare2 : aclCheckPermission { s with acls := acls2 }
              documentId gb "SHARE" = true
          · have hvalid1 : ∀ g ∈ grants,
                grantValid { s with acls := acls2 } g = true := hvalid
            obtain ⟨u2', hu2'⟩ := foldlM_applyGrant_of_valid
              { s with acls := acls2 } documentId gb grants acls2 []
              hvalid1
            have hcall : setPermissionsBulk { s with acls := acls2 }
                documentId grants gb =
                .ok ({ s with
                  acls := applyGrants documentId gb acls2 grants }, u2') := by
              unfold setPermissionsBulk
              rw [hdoc1, hshare2]
              simp only [Bool.not_true, Bool.false_eq_true, if_false]
              rw [hu2']
            rw [hcall]
            show applyGrants documentId gb acls2 grants = acls2
            rw [hacls2]
            exact applyGrants_idempotent documentId gb grants s.acls
          · have hcall : setPermissionsBulk { s with acls := acls2 }
                documentId grants gb = .error .permissionDenied := by
              unfold setPermissionsBulk
              rw [hdoc1, Bool.eq_false_iff.mpr hshare2]
              simp
            rw [hcall]
            rfl
        · intro g hg hrem
          show acls2.countP (fun r => grantMatches documentId g r) ≤ 1
          rw [hacls2,
            applyGrants_eq_filter_append documentId gb grants s.acls,
            List.countP_append]
          have h0 : (s.acls.filter (fun r =>
              !(matchesAny documentId grants r))).countP
                (fun r => grantMatches documentId g r) = 0 := by
            rw [List.countP_eq_zero]
            intro a ha
            obtain ⟨-, hnot⟩ := List.mem_filter.mp ha
            intro hga
            have : matchesAny documentId grants a = true := by
              unfold matchesAny
              rw [List.any_eq_true]
              exact ⟨g, hg, hga⟩
            simp [this] at hnot
          rw [h0]
          have h1' : (applyGrants documentId gb [] grants).countP
              (fun r => grantMatches documentId g r) ≤ 1 :=
            countP_applyGrants_le_one documentId gb g grants [] (by simp)
          simpa using h1'
    · rw [Bool.eq_false_iff.mpr hshare] at h1
      simp at h1

/-- The grant list of the C8 witness scenario: READ for agent 20. -/
def c8grants : List PermissionGrant :=
  [{ agentId := 20, permission := "READ", expiresAt := none,
     action := "grant" }]

/-- C8, instantiated: re-granting READ to agent 20 on document 1 lands on
the same ACL table (indeed the call is a fixed point of the state), and at
most one row per granted tuple remains. -/
theorem set_permissions_bulk_idempotent_witness :
    (resultState c2s (setPermissionsBulk c2s 1 c8grants 10)).acls =
      c2s.acls ∧
    ∀ g ∈ c8grants, g.action ≠ "remove" →
      c2s.acls.countP (fun r => grantMatches 1 g r) ≤ 1 :=
  set_permissions_bulk_idempotent c2s 1 c8grants 10 c2s
    [{ documentId := 1, agentId := 20, permission := "READ",
       grantedBy := 10, expiresAt := none }] (by decide)

/-! ## C6 -/

/-- The state of a freshly initialized deployment: empty tables. -/
def emptyState : VaultState :=
  { orgs := [], agents := [], documents := [], versions := [], acls := [],
    objects := [], nextId := 0, now := 0 }

/-- The states reachable from a fresh deployment through the public
operations. -/
inductive Reachable : VaultState → Prop where
  | init : Reachable emptyState
  | regOrg {s s2 : VaultState} {o : Nat} :
      Reachable s → registerOrganization s o = .ok s2 → Reachable s2
  | regAgent {s s2 : VaultState} {a o : Nat} :
      Reachable s → registerAgent s a o = .ok s2 → Reachable s2
  | upload {s s2 : VaultState} {content name : String} {orgId agentId : Nat}
      {ct fn pfxArg : Option String} {cv : Bool} {cd : Option String}
      {ok : Bool} {r : UploadResult} :
      Reachable s →
      uploadEnhanced s content name orgId agentId ct fn pfxArg cv cd ok =
        .ok (s2, r) →
      Reachable s2
  | replace {s s2 : VaultState} {documentId : Nat} {content : String}
      {agentId : Nat} {cd : String} {cv : Bool} {ct fn : Option String}
      {ok : Bool} {r : UploadResult} :
      Reachable s →
      replaceDocumentContent s documentId content agentId cd cv ct fn ok =
        .ok (s2, r) →
      Reachable s2
  | restore {s s2 : VaultState} {documentId versionNumber agentId : Nat}
      {cd : String} {ok : Bool} {v : VersionRow} :
      Reachable s →
      restoreVersion s documentId versionNumber agentId cd ok =
        .ok (s2, v) →
      Reachable s2
  | del {s s2 : VaultState} {documentId agentId : Nat} {hard : Bool} :
      Reachable s → deleteDocument s documentId agentId hard = .ok s2 →
      Reachable s2
  | setPerms {s s2 : VaultState} {documentId : Nat}
      {grants : List PermissionGrant} {gb : Nat} {u : List AclRow} :
      Reachable s →
      setPermissionsBulk s documentId grants gb = .ok (s2, u) →
      Reachable s2
  | transfer {s s2 : VaultState} {documentId f t b : Nat}
      {u : List AclRow} :
      Reachable s → transferOwnership s documentId f t b = .ok (s2, u) →
      Reachable s2

/-- P1 of the spec: for every document, the version numbers present in the
version table are exactly 1..current_version. -/
def versionNumbersExact (s : VaultState) : Prop :=
  ∀ d ∈ s.documents, ∀ n : Nat,
    (∃ v ∈ s.versions, v.documentId = d.id ∧ v.versionNumber = n) ↔
      (1 ≤ n ∧ n ≤ d.currentVersion)

/-- Keys in use are below the fresh-id counter (UUID freshness). -/
def idsFresh (s : VaultState) : Prop :=
  (∀ d ∈ s.documents, d.id < s.nextId) ∧
  (∀ v ∈ s.versions, v.documentId < s.nextId)

/-- Document primary keys are unique. -/
def docIdsNodup (s : VaultState) : Prop :=
  (s.documents.map Document.id).Nodup

/-- The inductive invariant carried through every operation. -/
def stateInv (s : VaultState) : Prop :=
  versionNumbersExact s ∧ idsFresh s ∧ docIdsNodup s

/-- A successful lookup returns a member row with the requested key. -/
theorem docGetById_mem {s : VaultState} {documentId : Nat}
    {document : Document} (h : docGetById s documentId = some document) :
    document ∈ s.documents ∧ document.id = documentId := by
  unfold docGetById at h
  refine ⟨List.mem_of_find?_eq_some h, ?_⟩
  have h2 := List.find?_some h
  simpa using h2

/-- With unique keys, any member carrying the looked-up key is the returned
row. -/
theorem docGetById_unique {s : VaultState} {documentId : Nat}
    {document : Document} (hnodup : docIdsNodup s)
    (hfind : docGetById s documentId = some document)
    {d0 : Document} (hd0 : d0 ∈ s.documents) (hid : d0.id = documentId) :
    d0 = document := by
  obtain ⟨hmem, hdid⟩ := docGetById_mem hfind
  exact List.inj_on_of_nodup_map hnodup hd0 hmem (by rw [hid, hdid])

/-- Membership in an update-by-key map. -/
theorem mem_documentRepoUpdate {documents : List Document} {dId : Nat}
    {f : Document → Document} {d2 : Document}
    (h : d2 ∈ documentRepoUpdate documents dId f) :
    ∃ d0 ∈ documents,
      d2 = (if d0.id == dId then f d0 else d0) := by
  unfold documentRepoUpdate at h
  obtain ⟨d0, hd0, hd2⟩ := List.mem_map.mp h
  exact ⟨d0, hd0, hd2.symm⟩

/-- An update-by-key map whose function keeps the key keeps the key list. -/
theorem documentRepoUpdate_map_id {documents : List Document} {dId : Nat}
    {f : Document → Document} (hf : ∀ d, (f d).id = d.id) :
    (documentRepoUpdate documents dId f).map Document.id =
      documents.map Document.id := by
  unfold documentRepoUpdate
  rw [List.map_map]
  apply List.map_congr_left
  intro d _
  simp only [Function.comp]
  split
  · exact hf d
  · rfl

/-- A version-row update that keeps document id and version number does not
change which (document, number) pairs are present. -/
theorem exists_version_versionRepoUpdate {versions : List VersionRow}
    {rid : Nat} {g : VersionRow → VersionRow}
    (hg1 : ∀ v, (g v).documentId = v.documentId)
    (hg2 : ∀ v, (g v).versionNumber = v.versionNumber)
    (docId n : Nat) :
    (∃ v ∈ versionRepoUpdate versions rid g,
        v.documentId = docId ∧ v.versionNumber = n) ↔
      (∃ v ∈ versions, v.documentId = docId ∧ v.versionNumber = n) := by
  unfold versionRepoUpdate
  constructor
  · rintro ⟨v, hv, hvd, hvn⟩
    obtain ⟨v0, hv0, hv0e⟩ := List.mem_map.mp hv
    refine ⟨v0, hv0, ?_, ?_⟩
    · by_cases hr : (v0.rowId == rid) = true
      · rw [if_pos hr] at hv0e
        rw [← hv0e] at hvd
        rw [hg1 v0] at hvd
        exact hvd
      · rw [if_neg hr] at hv0e
        rw [← hv0e] at hvd
        exact hvd
    · by_cases hr : (v0.rowId == rid) = true
      · rw [if_pos hr] at hv0e
        rw [← hv0e] at hvn
        rw [hg2 v0] at hvn
        exact hvn
      · rw [if_neg hr] at hv0e
        rw [← hv0e] at hvn
        exact hvn
  · rintro ⟨v, hv, hvd, hvn⟩
    refine ⟨if v.rowId == rid then g v else v,
      List.mem_map.mpr ⟨v, hv, rfl⟩, ?_, ?_⟩
    · by_cases hr : (v.rowId == rid) = true
      · rw [if_pos hr, hg1 v]
        exact hvd
      · rw [if_neg hr]
        exact hvd
    · by_cases hr : (v.rowId == rid) = true
      · rw [if_pos hr, hg2 v]
        exact hvn
      · rw [if_neg hr]
        exact hvn

/-- A version-row update that keeps document ids keeps key freshness. -/
theorem versionRepoUpdate_fresh {versions : List VersionRow} {rid : Nat}
    {g : VersionRow → VersionRow}
    (hg1 : ∀ v, (g v).documentId = v.documentId) {N : Nat}
    (h : ∀ v ∈ versions, v.documentId < N) :
    ∀ v ∈ versionRepoUpdate versions rid g, v.documentId < N := by
  intro v hv
  obtain ⟨v0, hv0, rfl⟩ := List.mem_map.mp hv
  by_cases hr : (v0.rowId == rid) = true
  · rw [if_pos hr, hg1 v0]
    exact h v0 hv0
  · rw [if_neg hr]
    exact h v0 hv0

/-- Invariant preservation for the creation shape: a fresh document with
current_version 1 plus its version row 1 are appended and the id counter
advances. -/
theorem stateInv_create_shape (s : VaultState) (doc : Document)
    (ver : VersionRow) (A : List AclRow)
    (O : List ((String × String) × String)) (k : Nat)
    (hinv : stateInv s) (hdocid : doc.id = s.nextId)
    (hcv : doc.currentVersion = 1) (hverdoc : ver.documentId = s.nextId)
    (hvernum : ver.versionNumber = 1) (hk : 1 ≤ k) :
    stateInv { s with documents := s.documents ++ [doc],
                      versions := s.versions ++ [ver], acls := A,
                      objects := O, nextId := s.nextId + k } := by
  obtain ⟨hexact, ⟨hdocs, hvers⟩, hnodup⟩ := hinv
  refine ⟨?_, ⟨?_, ?_⟩, ?_⟩
  · intro d2 hd2 n
    rcases List.mem_append.mp hd2 with hmem | hnew
    · constructor
      · rintro ⟨v, hv, hvd, hvn⟩
        rcases List.mem_append.mp hv with hvm | hvnew
        · exact (hexact d2 hmem n).mp ⟨v, hvm, hvd, hvn⟩
        · have hveq : v = ver := by simpa using hvnew
          subst hveq
          have h1 : d2.id = s.nextId := by rw [← hvd, hverdoc]
          exact absurd h1 (Nat.ne_of_lt (hdocs d2 hmem))
      · rintro ⟨h1n, h2n⟩
        obtain ⟨v, hv, hvd, hvn⟩ := (hexact d2 hmem n).mpr ⟨h1n, h2n⟩
        exact ⟨v, List.mem_append_left _ hv, hvd, hvn⟩
    · have hd2eq : d2 = doc := by simpa using hnew
      subst hd2eq
      constructor
      · rintro ⟨v, hv, hvd, hvn⟩
        rcases List.mem_append.mp hv with hvm | hvnew
        · rw [hdocid] at hvd
          exact absurd hvd (Nat.ne_of_lt (hvers v hvm))
        · have hveq : v = ver := by simpa using hvnew
          subst hveq
          rw [hvernum] at hvn
          rw [hcv, ← hvn]
          exact ⟨le_refl 1, le_refl 1⟩
      · rintro ⟨h1n, h2n⟩
        rw [hcv] at h2n
        have hn1 : n = 1 := le_antisymm h2n h1n
        subst hn1
        refine ⟨ver, List.mem_append_right _ (by simp), ?_, hvernum⟩
        rw [hverdoc, hdocid]
  · intro d2 hd2
    dsimp only
    rcases List.mem_append.mp hd2 with hmem | hnew
    · have := hdocs d2 hmem
      omega
    · have hd2eq : d2 = doc := by simpa using hnew
      subst hd2eq
      rw [hdocid]
      omega
  · intro v hv
    dsimp only
    rcases List.mem_append.mp hv with hvm | hvnew
    · have := hvers v hvm
      omega
    · have hveq : v = ver := by simpa using hvnew
      subst hveq
      rw [hverdoc]
      omega
  · show ((s.documents ++ [doc]).map Document.id).Nodup
    rw [List.map_append]
    refine List.Nodup.append hnodup (by simp) ?_
    intro x hx hy
    obtain ⟨d0, hd0, hd0x⟩ := List.mem_map.mp hx
    have hxval : x = doc.id := by simpa using hy
    have h1 := hdocs d0 hd0
    rw [hd0x, hxval, hdocid] at h1
    omega

/-- Invariant preservation for the new-version shape: the target document's
current_version is bumped to its successor and the matching version row is
appended. -/
theorem stateInv_new_version_shape (s : VaultState) (documentId : Nat)
    (document : Document) (f : Document → Document) (ver : VersionRow)
    (O : List ((String × String) × String))
    (hinv : stateInv s) (hfind : docGetById s documentId = some document)
    (hf_id : ∀ d, (f d).id = d.id)
    (hf_cv : ∀ d, (f d).currentVersion = document.currentVersion + 1)
    (hverdoc : ver.documentId = documentId)
    (hvernum : ver.versionNumber = document.currentVersion + 1) :
    stateInv { s with
      documents := documentRepoUpdate s.documents documentId f,
      versions := s.versions ++ [ver], objects := O,
      nextId := s.nextId + 1 } := by
  obtain ⟨hexact, ⟨hdocs, hvers⟩, hnodup⟩ := hinv
  obtain ⟨hdmem, hdid⟩ := docGetById_mem hfind
  refine ⟨?_, ⟨?_, ?_⟩, ?_⟩
  · intro d2 hd2 n
    obtain ⟨d0, hd0, rfl⟩ := mem_documentRepoUpdate hd2
    by_cases hid : (d0.id == documentId) = true
    · have hd0eq : d0 = document :=
        docGetById_unique hnodup hfind hd0 (by simpa using hid)
      subst hd0eq
      rw [if_pos hid, hf_id, hf_cv]
      constructor
      · rintro ⟨v, hv, hvd, hvn⟩
        rcases List.mem_append.mp hv with hvm | hvnew
        · have := (hexact d0 hd0 n).mp ⟨v, hvm, hvd, hvn⟩
          omega
        · have hveq : v = ver := by simpa using hvnew
          subst hveq
          rw [hvernum] at hvn
          omega
      · rintro ⟨h1n, h2n⟩
        by_cases hn : n ≤ d0.currentVersion
        · obtain ⟨v, hv, hvd, hvn⟩ := (hexact d0 hd0 n).mpr ⟨h1n, hn⟩
          exact ⟨v, List.mem_append_left _ hv, hvd, hvn⟩
        · have hn1 : n = d0.currentVersion + 1 := by omega
          subst hn1
          refine ⟨ver, List.mem_append_right _ (by simp), ?_, hvernum⟩
          rw [hverdoc, hdid]
    · rw [if_neg hid]
      have hne : d0.id ≠ documentId := by simpa using hid
      constructor
      · rintro ⟨v, hv, hvd, hvn⟩
        rcases List.mem_append.mp hv with hvm | hvnew
        · exact (hexact d0 hd0 n).mp ⟨v, hvm, hvd, hvn⟩
        · have hveq : v = ver := by simpa using hvnew
          subst hveq
          have : d0.id = documentId := by rw [← hvd, hverdoc]
          exact absurd this hne
      · rintro hb
        obtain ⟨v, hv, hvd, hvn⟩ := (hexact d0 hd0 n).mpr hb
        exact ⟨v, List.mem_append_left _ hv, hvd, hvn⟩
  · intro d2 hd2
    dsimp only
    obtain ⟨d0, hd0, rfl⟩ := mem_documentRepoUpdate hd2
    have hid2 : (if d0.id == documentId then f d0 else d0).id = d0.id := by
      split
      · exact hf_id d0
      · rfl
    rw [hid2]
    have := hdocs d0 hd0
    omega
  · intro v hv
    dsimp only
    rcases List.mem_append.mp hv with hvm | hvnew
    · have := hvers v hvm
      omega
    · have hveq : v = ver := by simpa using hvnew
      subst hveq
      rw [hverdoc, ← hdid]
      have := hdocs document hdmem
      omega
  · show ((documentRepoUpdate s.documents documentId f).map
        Document.id).Nodup
    rw [documentRepoUpdate_map_id hf_id]
    exact hnodup

/-- Invariant preservation for field-only updates: document updates that
keep id and current_version, paired with any version table presenting the
same (document, number) pairs. -/
theorem stateInv_fields_shape (s : VaultState) (documentId : Nat)
    (f : Document → Document) (V : List VersionRow)
    (O : List ((String × String) × String))
    (hinv : stateInv s)
    (hf_id : ∀ d, (f d).id = d.id)
    (hf_cv : ∀ d, (f d).currentVersion = d.currentVersion)
    (hV : ∀ docId n,
      (∃ v ∈ V, v.documentId = docId ∧ v.versionNumber = n) ↔
        (∃ v ∈ s.versions, v.documentId = docId ∧ v.versionNumber = n))
    (hVfresh : ∀ v ∈ V, v.documentId < s.nextId) :
    stateInv { s with
      documents := documentRepoUpdate s.documents documentId f,
      versions := V, objects := O } := by
  obtain ⟨hexact, ⟨hdocs, hvers⟩, hnodup⟩ := hinv
  refine ⟨?_, ⟨?_, ?_⟩, ?_⟩
  · intro d2 hd2 n
    obtain ⟨d0, hd0, rfl⟩ := mem_documentRepoUpdate hd2
    have hid2 : (if d0.id == documentId then f d0 else d0).id = d0.id := by
      split
      · exact hf_id d0
      · rfl
    have hcv2 : (if d0.id == documentId then f d0 else
        d0).currentVersion = d0.currentVersion := by
      split
      · exact hf_cv d0
      · rfl
    rw [hid2, hcv2, hV]
    exact hexact d0 hd0 n
  · intro d2 hd2
    obtain ⟨d0, hd0, rfl⟩ := mem_documentRepoUpdate hd2
    have hid2 : (if d0.id == documentId then f d0 else d0).id = d0.id := by
      split
      · exact hf_id d0
      · rfl
    rw [hid2]
    exact hdocs d0 hd0
  · exact hVfresh
  · show ((documentRepoUpdate s.documents documentId f).map
        Document.id).Nodup
    rw [documentRepoUpdate_map_id hf_id]
    exact hnodup

/-- Invariant preservation for a hard delete: the document row and every
version row of the document vanish together. -/
theorem stateInv_hard_delete_shape (s : VaultState) (documentId : Nat)
    (A : List AclRow) (O : List ((String × String) × String))
    (hinv : stateInv s) :
    stateInv { s with
      documents := s.documents.filter (fun d => d.id != documentId),
      versions := s.versions.filter (fun v => v.documentId != documentId),
      acls := A, objects := O } := by
  obtain ⟨hexact, ⟨hdocs, hvers⟩, hnodup⟩ := hinv
  refine ⟨?_, ⟨?_, ?_⟩, ?_⟩
  · intro d2 hd2 n
    obtain ⟨hmem, hne⟩ := List.mem_filter.mp hd2
    have hne2 : d2.id ≠ documentId := by simpa using hne
    constructor
    · rintro ⟨v, hv, hvd, hvn⟩
      exact (hexact d2 hmem n).mp
        ⟨v, (List.mem_filter.mp hv).1, hvd, hvn⟩
    · rintro hb
      obtain ⟨v, hv, hvd, hvn⟩ := (hexact d2 hmem n).mpr hb
      refine ⟨v, List.mem_filter.mpr ⟨hv, ?_⟩, hvd, hvn⟩
      simp only [bne_iff_ne, ne_eq]
      rw [hvd]
      exact hne2
  · intro d2 hd2
    exact hdocs d2 (List.mem_filter.mp hd2).1
  · intro v hv
    exact hvers v (List.mem_filter.mp hv).1
  · show ((s.documents.filter (fun d => d.id != documentId)).map
        Document.id).Nodup
    exact ((List.filter_sublist _).map Document.id).nodup hnodup

/-- `_create_new_document` preserves the invariant. -/
theorem stateInv_createNewDocument {s : VaultState} {content name : String}
    {orgId agentId : Nat} {ct fn pfxArg : Option String} {ok : Bool}
    {s2 : VaultState} {d : Document} (hinv : stateInv s)
    (h : createNewDocument s content name orgId agentId ct fn pfxArg ok =
      .ok (s2, d)) : stateInv s2 := by
  by_cases hp : prefixOk pfxArg = true
  · by_cases hs : ok = true
    · simp only [createNewDocument, hp, hs, Bool.not_true,
        Bool.false_eq_true, if_false, Except.ok.injEq, Prod.mk.injEq] at h
      obtain ⟨rfl, -⟩ := h
      exact stateInv_create_shape s _ _ _ _ 2 hinv rfl rfl rfl rfl
        (by omega)
    · simp [createNewDocument, hp, Bool.eq_false_iff.mpr hs] at h
  · simp [createNewDocument, Bool.eq_false_iff.mpr hp] at h

/-- `replace_document_content` preserves the invariant. -/
theorem stateInv_replaceDocumentContent {s : VaultState}
    {documentId : Nat} {content : String} {agentId : Nat} {cd : String}
    {cv : Bool} {ct fn : Option String} {ok : Bool} {s2 : VaultState}
    {r : UploadResult} (hinv : stateInv s)
    (h : replaceDocumentContent s documentId content agentId cd cv ct fn
      ok = .ok (s2, r)) : stateInv s2 := by
  unfold replaceDocumentContent at h
  by_cases hA : agentExists s agentId = true
  case neg =>
    rw [Bool.eq_false_iff.mpr hA] at h
    simp at h
  rw [hA] at h
  simp only [Bool.not_true, Bool.false_eq_true, if_false] at h
  cases hfind : docGetById s documentId with
  | none =>
    rw [hfind] at h
    dsimp only at h
    simp at h
  | some document =>
    rw [hfind] at h
    dsimp only at h
    by_cases hdel : (document.status == "deleted") = true
    case pos =>
      rw [if_pos hdel] at h
      simp at h
    rw [if_neg hdel] at h
    by_cases hW : aclCheckPermission s documentId agentId "WRITE" = true
    case neg =>
      rw [Bool.eq_false_iff.mpr hW] at h
      simp at h
    rw [hW] at h
    simp only [Bool.not_true, Bool.false_eq_true, if_false] at h
    cases cv with
    | true =>
      by_cases hs : ok = true
      case neg =>
        rw [Bool.eq_false_iff.mpr hs] at h
        simp at h
      rw [hs] at h
      simp only [Bool.not_true, Bool.false_eq_true, if_false, if_true,
        Except.ok.injEq, Prod.mk.injEq] at h
      obtain ⟨rfl, -⟩ := h
      exact stateInv_new_version_shape s documentId document _ _ _ hinv
        hfind (fun d => rfl) (fun d => rfl) rfl rfl
    | false =>
      by_cases hs : ok = true
      case neg =>
        rw [Bool.eq_false_iff.mpr hs] at h
        simp at h
      rw [hs] at h
      simp only [Bool.not_true, Bool.false_eq_true, if_false,
        Bool.false_eq_true, Except.ok.injEq, Prod.mk.injEq] at h
      obtain ⟨rfl, -⟩ := h
      refine stateInv_fields_shape s documentId _ _ _ hinv ?_ ?_ ?_ ?_
      · exact fun d => rfl
      · exact fun d => rfl
      · intro docId n
        refine exists_version_versionRepoUpdate ?_ ?_ docId n
        · intro v2
          rfl
        · intro v2
          rfl
      · refine versionRepoUpdate_fresh ?_ hinv.2.1.2
        intro v2
        rfl

/-- `restore_version` preserves the invariant. -/
theorem stateInv_restoreVersion {s : VaultState}
    {documentId versionNumber agentId : Nat} {cd : String} {ok : Bool}
    {s2 : VaultState} {v : VersionRow} (hinv : stateInv s)
    (h : restoreVersion s documentId versionNumber agentId cd ok =
      .ok (s2, v)) : stateInv s2 := by
  unfold restoreVersion at h
  by_cases hA : agentExists s agentId = true
  case neg =>
    rw [Bool.eq_false_iff.mpr hA] at h
    simp at h
  rw [hA] at h
  simp only [Bool.not_true, Bool.false_eq_true, if_false] at h
  cases hfind : docGetById s documentId with
  | none =>
    rw [hfind] at h
    dsimp only at h
    simp at h
  | some document =>
    rw [hfind] at h
    dsimp only at h
    by_cases hdel : (document.status == "deleted") = true
    case pos =>
      rw [if_pos hdel] at h
      simp at h
    rw [if_neg hdel] at h
    by_cases hW : aclCheckPermission s documentId agentId "WRITE" = true
    case neg =>
      rw [Bool.eq_false_iff.mpr hW] at h
      simp at h
    rw [hW] at h
    simp only [Bool.not_true, Bool.false_eq_true, if_false] at h
    cases htarget : s.versions.find? (fun v2 =>
        v2.documentId == documentId &&
          v2.versionNumber == versionNumber) with
    | none =>
      rw [htarget] at h
      dsimp only at h
      simp at h
    | some target =>
      rw [htarget] at h
      dsimp only at h
      cases hobj : s.objects.find? (fun o =>
          o.1 == (bucketName document.organizationId,
            target.storagePath)) with
      | none =>
        rw [hobj] at h
        dsimp only at h
        simp at h
      | some obj =>
        rw [hobj] at h
        dsimp only at h
        by_cases hs : ok = true
        case neg =>
          rw [Bool.eq_false_iff.mpr hs] at h
          simp at h
        rw [hs] at h
        simp only [Bool.not_true, Bool.false_eq_true, if_false,
          Except.ok.injEq, Prod.mk.injEq] at h
        obtain ⟨rfl, -⟩ := h
        exact stateInv_new_version_shape s documentId document _ _ _ hinv
          hfind (fun d => rfl) (fun d => rfl) rfl rfl

/-- `delete_document` preserves the invariant. -/
theorem stateInv_deleteDocument {s : VaultState}
    {documentId agentId : Nat} {hard : Bool} {s2 : VaultState}
    (hinv : stateInv s)
    (h : deleteDocument s documentId agentId hard = .ok s2) :
    stateInv s2 := by
  unfold deleteDocument at h
  by_cases hA : agentExists s agentId = true
  case neg =>
    rw [Bool.eq_false_iff.mpr hA] at h
    simp at h
  rw [hA] at h
  simp only [Bool.not_true, Bool.false_eq_true, if_false] at h
  cases hfind : docGetById s documentId with
  | none =>
    rw [hfind] at h
    dsimp only at h
    simp at h
  | some document =>
    rw [hfind] at h
    dsimp only at h
    by_cases hdel : (document.status == "deleted") = true
    case pos =>
      rw [if_pos hdel] at h
      simp at h
    rw [if_neg hdel] at h
    by_cases hD : aclCheckPermission s documentId agentId "DELETE" = true
    case neg =>
      rw [Bool.eq_false_iff.mpr hD] at h
      simp at h
    rw [hD] at h
    simp only [Bool.not_true, Bool.false_eq_true, if_false] at h
    cases hard with
    | true =>
      simp only [if_true, Except.ok.injEq] at h
      subst h
      exact stateInv_hard_delete_shape s documentId _ _ hinv
    | false =>
      simp only [Bool.false_eq_true, if_false, Except.ok.injEq] at h
      subst h
      exact stateInv_fields_shape s documentId _ _ _ hinv
        (fun d => rfl) (fun d => rfl) (fun docId n => Iff.rfl)
        hinv.2.1.2

/-- `upload_enhanced` preserves the invariant (it dispatches to creation
or to replacement). -/
theorem stateInv_uploadEnhanced {s : VaultState} {content name : String}
    {orgId agentId : Nat} {ct fn pfxArg : Option String} {cv : Bool}
    {cd : Option String} {ok : Bool} {s2 : VaultState} {r : UploadResult}
    (hinv : stateInv s)
    (h : uploadEnhanced s content name orgId agentId ct fn pfxArg cv cd
      ok = .ok (s2, r)) : stateInv s2 := by
  unfold uploadEnhanced at h
  by_cases hA : agentExists s agentId = true
  case neg =>
    rw [Bool.eq_false_iff.mpr hA] at h
    simp at h
  rw [hA] at h
  simp only [Bool.not_true, Bool.false_eq_true, if_false] at h
  by_cases hO : orgExists s orgId = true
  case neg =>
    rw [Bool.eq_false_iff.mpr hO] at h
    simp at h
  rw [hO] at h
  simp only [Bool.not_true, Bool.false_eq_true, if_false] at h
  cases hfind : findExistingDocument s name orgId pfxArg with
  | some e =>
    rw [hfind] at h
    exact stateInv_replaceDocumentContent hinv h
  | none =>
    rw [hfind] at h
    cases hcreate : createNewDocument s content name orgId agentId ct fn
        pfxArg ok with
    | error e =>
      rw [hcreate] at h
      simp at h
    | ok out =>
      obtain ⟨s3, d3⟩ := out
      rw [hcreate] at h
      simp only [Except.ok.injEq, Prod.mk.injEq] at h
      obtain ⟨rfl, -⟩ := h
      exact stateInv_createNewDocument hinv hcreate

/-- `register_organization` preserves the invariant (it touches only the
organizations table). -/
theorem stateInv_registerOrganization {s s2 : VaultState} {o : Nat}
    (hinv : stateInv s) (h : registerOrganization s o = .ok s2) :
    stateInv s2 := by
  unfold registerOrganization at h
  by_cases hc : s.orgs.contains o = true
  · rw [if_pos hc] at h
    simp at h
  · rw [if_neg hc] at h
    simp only [Except.ok.injEq] at h
    subst h
    exact hinv

/-- `register_agent` preserves the invariant. -/
theorem stateInv_registerAgent {s s2 : VaultState} {a o : Nat}
    (hinv : stateInv s) (h : registerAgent s a o = .ok s2) :
    stateInv s2 := by
  unfold registerAgent at h
  by_cases hO : orgExists s o = true
  case neg =>
    rw [Bool.eq_false_iff.mpr hO] at h
    simp at h
  rw [hO] at h
  simp only [Bool.not_true, Bool.false_eq_true, if_false] at h
  by_cases hc : s.agents.contains a = true
  · rw [if_pos hc] at h
    simp at h
  · rw [if_neg hc] at h
    simp only [Except.ok.injEq] at h
    subst h
    exact hinv

/-- `set_permissions_bulk` preserves the invariant (it touches only the
ACL table). -/
theorem stateInv_setPermissionsBulk {s s2 : VaultState}
    {documentId : Nat} {grants : List PermissionGrant} {gb : Nat}
    {u : List AclRow} (hinv : stateInv s)
    (h : setPermissionsBulk s documentId grants gb = .ok (s2, u)) :
    stateInv s2 := by
  unfold setPermissionsBulk at h
  cases hdoc : docGetById s documentId with
  | none =>
    rw [hdoc] at h
    simp at h
  | some doc =>
    rw [hdoc] at h
    by_cases hshare : aclCheckPermission s documentId gb "SHARE" = true
    · rw [hshare] at h
      simp only [Bool.not_true, Bool.false_eq_true, if_false] at h
      cases hfold : grants.foldlM (applyGrant s documentId gb)
          (s.acls, ([] : List AclRow)) with
      | error e =>
        rw [hfold] at h
        simp at h
      | ok out =>
        obtain ⟨acls2, u2⟩ := out
        rw [hfold] at h
        simp only [Except.ok.injEq, Prod.mk.injEq] at h
        obtain ⟨rfl, -⟩ := h
        exact hinv
    · rw [Bool.eq_false_iff.mpr hshare] at h
      simp at h

/-- `transfer_ownership` preserves the invariant (it touches only the ACL
table). -/
theorem stateInv_transferOwnership {s s2 : VaultState}
    {documentId f t b : Nat} {u : List AclRow} (hinv : stateInv s)
    (h : transferOwnership s documentId f t b = .ok (s2, u)) :
    stateInv s2 := by
  unfold transferOwnership at h
  cases hdoc : docGetById s documentId with
  | none =>
    rw [hdoc] at h
    simp at h
  | some doc =>
    rw [hdoc] at h
    dsimp only at h
    by_cases hauth : ((f == b) || aclCheckPermission s documentId b
        "ADMIN") = true
    · rw [hauth] at h
      simp only [Bool.not_true, Bool.false_eq_true, if_false,
        Except.ok.injEq, Prod.mk.injEq] at h
      obtain ⟨rfl, -⟩ := h
      exact hinv
    · rw [Bool.eq_false_iff.mpr hauth] at h
      simp at h

/-- Every reachable state satisfies the invariant. -/
theorem stateInv_of_reachable {s : VaultState} (h : Reachable s) :
    stateInv s := by
  induction h with
  | init =>
    refine ⟨?_, ⟨?_, ?_⟩, ?_⟩
    · intro d hd
      exact absurd hd (by simp [emptyState])
    · intro d hd
      exact absurd hd (by simp [emptyState])
    · intro v hv
      exact absurd hv (by simp [emptyState])
    · simp [docIdsNodup, emptyState]
  | regOrg _ heq ih => exact stateInv_registerOrganization ih heq
  | regAgent _ heq ih => exact stateInv_registerAgent ih heq
  | upload _ heq ih => exact stateInv_uploadEnhanced ih heq
  | replace _ heq ih => exact stateInv_replaceDocumentContent ih heq
  | restore _ heq ih => exact stateInv_restoreVersion ih heq
  | del _ heq ih => exact stateInv_deleteDocument ih heq
  | setPerms _ heq ih => exact stateInv_setPermissionsBulk ih heq
  | transfer _ heq ih => exact stateInv_transferOwnership ih heq

/-- The updated image of the looked-up document belongs to the update-by-key
map. -/
theorem self_mem_documentRepoUpdate {documents : List Document}
    {documentId : Nat} {document : Document} (hmem : document ∈ documents)
    (hid : document.id = documentId) (f : Document → Document) :
    f document ∈ documentRepoUpdate documents documentId f := by
  unfold documentRepoUpdate
  refine List.mem_map.mpr ⟨document, hmem, ?_⟩
  rw [if_pos (by simp [hid])]

/-- C6: in every reachable state the version numbers of each document are
exactly the contiguous range 1..current_version; and each version-creating
operation (replace with createVersion, brand-new creation, restore) leaves
the document row mirroring the newly inserted version row's
current_version, filename, file_size, mime_type and storage_path. -/
theorem version_numbers_contiguous_and_mirrored (s : VaultState)
    (h : Reachable s) :
    versionNumbersExact s ∧
    (∀ documentId content agentId cd ct fn ok s2 v,
      replaceDocumentContent s documentId content agentId cd true ct fn
          ok = .ok (s2, .ver v) →
      v ∈ s2.versions ∧
      ∃ d2 ∈ s2.documents, d2.id = documentId ∧
        d2.currentVersion = v.versionNumber ∧ d2.filename = v.filename ∧
        d2.fileSize = v.fileSize ∧ d2.mimeType = v.mimeType ∧
        d2.storagePath = v.storagePath) ∧
    (∀ content name orgId agentId ct fn pfxArg ok s2 d,
      createNewDocument s content name orgId agentId ct fn pfxArg ok =
          .ok (s2, d) →
      d ∈ s2.documents ∧ d.currentVersion = 1 ∧
      ∃ v ∈ s2.versions, v.documentId = d.id ∧ v.versionNumber = 1 ∧
        d.filename = v.filename ∧ d.fileSize = v.fileSize ∧
        d.mimeType = v.mimeType ∧ d.storagePath = v.storagePath) ∧
    (∀ documentId versionNumber agentId cd ok s2 v,
      restoreVersion s documentId versionNumber agentId cd ok =
          .ok (s2, v) →
      v ∈ s2.versions ∧
      ∃ d2 ∈ s2.documents, d2.id = documentId ∧
        d2.currentVersion = v.versionNumber ∧ d2.filename = v.filename ∧
        d2.fileSize = v.fileSize ∧ d2.mimeType = v.mimeType ∧
        d2.storagePath = v.storagePath) := by
  refine ⟨(stateInv_of_reachable h).1, ?_, ?_, ?_⟩
  · intro documentId content agentId cd ct fn ok s2 v hrep
    unfold replaceDocumentContent at hrep
    by_cases hA : agentExists s agentId = true
    case neg =>
      rw [Bool.eq_false_iff.mpr hA] at hrep
      simp at hrep
    rw [hA] at hrep
    simp only [Bool.not_true, Bool.false_eq_true, if_false] at hrep
    cases hfind : docGetById s documentId with
    | none =>
      rw [hfind] at hrep
      simp at hrep
    | some document =>
      rw [hfind] at hrep
      dsimp only at hrep
      by_cases hdel : (document.status == "deleted") = true
      case pos =>
        rw [if_pos hdel] at hrep
        simp at hrep
      rw [if_neg hdel] at hrep
      by_cases hW : aclCheckPermission s documentId agentId "WRITE" = true
      case neg =>
        rw [Bool.eq_false_iff.mpr hW] at hrep
        simp at hrep
      rw [hW] at hrep
      simp only [Bool.not_true, Bool.false_eq_true, if_false,
        if_true] at hrep
      by_cases hs : ok = true
      case neg =>
        rw [Bool.eq_false_iff.mpr hs] at hrep
        simp at hrep
      rw [hs] at hrep
      simp only [Bool.not_true, Bool.false_eq_true, if_false,
        Except.ok.injEq, Prod.mk.injEq, UploadResult.ver.injEq] at hrep
      obtain ⟨rfl, rfl⟩ := hrep
      obtain ⟨hdmem, hdid⟩ := docGetById_mem hfind
      constructor
      · exact List.mem_append_right _ (by simp)
      · exact ⟨_, self_mem_documentRepoUpdate hdmem hdid _, hdid, rfl,
          rfl, rfl, rfl, rfl⟩
  · intro content name orgId agentId ct fn pfxArg ok s2 d hcre
    by_cases hp : prefixOk pfxArg = true
    case neg => simp [createNewDocument, Bool.eq_false_iff.mpr hp] at hcre
    by_cases hs : ok = true
    case neg =>
      simp [createNewDocument, hp, Bool.eq_false_iff.mpr hs] at hcre
    simp only [createNewDocument, hp, hs, Bool.not_true,
      Bool.false_eq_true, if_false, Except.ok.injEq, Prod.mk.injEq] at hcre
    obtain ⟨rfl, rfl⟩ := hcre
    exact ⟨List.mem_append_right _ (List.mem_singleton_self _), rfl,
      ⟨_, List.mem_append_right _ (List.mem_singleton_self _), rfl, rfl,
        rfl, rfl, rfl, rfl⟩⟩
  · intro documentId versionNumber agentId cd ok s2 v hres
    unfold restoreVersion at hres
    by_cases hA : agentExists s agentId = true
    case neg =>
      rw [Bool.eq_false_iff.mpr hA] at hres
      simp at hres
    rw [hA] at hres
    simp only [Bool.not_true, Bool.false_eq_true, if_false] at hres
    cases hfind : docGetById s documentId with
    | none =>
      rw [hfind] at hres
      simp at hres
    | some document =>
      rw [hfind] at hres
      dsimp only at hres
      by_cases hdel : (document.status == "deleted") = true
      case pos =>
        rw [if_pos hdel] at hres
        simp at hres
      rw [if_neg hdel] at hres
      by_cases hW : aclCheckPermission s documentId agentId "WRITE" = true
      case neg =>
        rw [Bool.eq_false_iff.mpr hW] at hres
        simp at hres
      rw [hW] at hres
      simp only [Bool.not_true, Bool.false_eq_true, if_false] at hres
      cases htarget : s.versions.find? (fun v2 =>
          v2.documentId == documentId &&
            v2.versionNumber == versionNumber) with
      | none =>
        rw [htarget] at hres
        simp at hres
      | some target =>
        rw [htarget] at hres
        dsimp only at hres
        cases hobj : s.objects.find? (fun o =>
            o.1 == (bucketName document.organizationId,
              target.storagePath)) with
        | none =>
          rw [hobj] at hres
          simp at hres
        | some obj =>
          rw [hobj] at hres
          dsimp only at hres
          by_cases hs : ok = true
          case neg =>
            rw [Bool.eq_false_iff.mpr hs] at hres
            simp at hres
          rw [hs] at hres
          simp only [Bool.not_true, Bool.false_eq_true, if_false,
            Except.ok.injEq, Prod.mk.injEq] at hres
          obtain ⟨rfl, rfl⟩ := hres
          obtain ⟨hdmem, hdid⟩ := docGetById_mem hfind
          constructor
          · exact List.mem_append_right _ (by simp)
          · exact ⟨_, self_mem_documentRepoUpdate hdmem hdid _, hdid,
              rfl, rfl, rfl, rfl, rfl⟩

/-- First step of the C6 witness chain: organization 1 registered. -/
def c6s1 : VaultState := { emptyState with orgs := [1] }

/-- Second step: agent 10 registered in organization 1. -/
def c6s2 : VaultState := { c6s1 with agents := [10] }

/-- Third step: the state after agent 10 uploads one document. -/
def c6s3 : VaultState :=
  match uploadEnhanced c6s2 "body" "Doc" 1 10 none none none true none
      true with
  | .ok (st, _) => st
  | .error _ => c6s2

/-- The document row produced by the C6 witness upload. -/
def c6doc : Document :=
  { id := 0, organizationId := 1, name := "Doc", filename := "Doc.bin",
    fileSize := 4, mimeType := "application/octet-stream",
    storagePath := "0/v1/Doc.bin", pfx := none, path := some "/Doc",
    currentVersion := 1, status := "active", createdBy := 10 }

/-- Step equation: registering the organization. -/
theorem c6s1_step : registerOrganization emptyState 1 = .ok c6s1 := by
  decide

/-- Step equation: registering the agent. -/
theorem c6s2_step : registerAgent c6s1 10 1 = .ok c6s2 := by decide

/-- Step equation: the upload commits and returns the document. -/
theorem c6s3_step :
    uploadEnhanced c6s2 "body" "Doc" 1 10 none none none true none true =
      .ok (c6s3, .doc c6doc) := by decide

/-- The upload outcome is a reachable state. -/
theorem c6s3_reachable : Reachable c6s3 :=
  Reachable.upload
    (Reachable.regAgent (Reachable.regOrg Reachable.init c6s1_step)
      c6s2_step)
    c6s3_step

/-- C6, instantiated: the concretely reachable one-document state has
exactly the version numbers 1..current_version for each document. -/
theorem version_numbers_contiguous_and_mirrored_witness :
    versionNumbersExact c6s3 :=
  (version_numbers_contiguous_and_mirrored c6s3 c6s3_reachable).1

end DocVault
